import Mathlib

/-!
# Escapist `List` : an implicitly shared dynamic array

Shallow embedding of `List.h`, `ReferenceCount.h`, `Allocator.h` and of
`TypeTrait.h`: the trivial (`PodTypeTrait`) element strategy on the byte-level
heap, and `Equals`, `Compare`, the managed `Copy` loop and the managed
`Destroy` on element-typed memory.

* Raw storage is modelled byte by byte.  `w` is `sizeof(Type)`; a pointer
  `data + k` of type `Type*` is the byte offset `k * w` inside a block.
* A block is one `malloc` result: the `ReferenceCount*` cell in front
  (`slot`) and the element bytes behind it.
* `initialSize * 1.5` is evaluated as the source does, in `double`: the
  operand and the product are rounded to 53 significant bits, ties to even,
  and the result is truncated.
* The counter is an `int` of 32 bits; `fetch_add` and `fetch_sub` wrap.
* The member functions are embedded twice.  The first embedding (sections
  `ListCore` and `List`) follows the statements of each member on the state
  `Heap × ListCore`: `size_t` values are natural numbers, the comparison of
  `IsShared` is made on the value the counter holds, `::memcpy` is "read the
  source bytes, then write them", and a missing `return` shows as a missing
  pointer.  It serves to follow a member statement by statement on a small
  concrete buffer.  The second embedding (namespace `Strict`) follows the
  same statements and yields `none` as soon as one of them has undefined
  behaviour; it serves for what a call is guaranteed to do.
-/

namespace Escapist

/-- A byte of raw storage: `some b` once written, `none` while indeterminate. -/
abbrev Cell := Option Nat

/-- One allocation `[ReferenceCount*][Type x capacity]`. -/
structure Block where
  /-- The cell `*ref`: the counter this block points at, if any. -/
  slot : Option Nat
  /-- The element bytes behind the counter cell. -/
  bytes : List Cell
deriving DecidableEq, Repr

/-- The allocator state: blocks by address, counters by address, and the
addresses handed back to `::free`. -/
structure Heap where
  blocks : List Block
  counters : List Int
  freed : List Nat
deriving DecidableEq, Repr

/-- The four fields of `ListCore<Type>`.  `ref` and `data` hold the address of
the block they point into (`data` is always `ref + 1`). -/
structure ListCore where
  ref : Option Nat
  data : Option Nat
  size : Nat
  capacity : Nat
deriving DecidableEq, Repr

/-- A `Type*` value: a block and an element offset into it. -/
structure Ptr where
  block : Option Nat
  offset : Nat
deriving DecidableEq, Repr

/-! ## Allocator and raw memory -/

def Heap.empty : Heap := ⟨[], [], []⟩

/-- The value of `*ref` for the block at address `r`. -/
def Heap.slotOf (h : Heap) (r : Nat) : Option Nat :=
  match h.blocks[r]? with
  | some b => b.slot
  | none => none

/-- The element bytes of the block at address `r`. -/
def Heap.bytesOf (h : Heap) (r : Nat) : List Cell :=
  match h.blocks[r]? with
  | some b => b.bytes
  | none => []

def Heap.modifyBlock (h : Heap) (r : Nat) (f : Block → Block) : Heap :=
  match h.blocks[r]? with
  | some b => { h with blocks := h.blocks.set r (f b) }
  | none => h

/-- The assignment `(*ref) = v`. -/
def Heap.setSlot (h : Heap) (r : Nat) (v : Option Nat) : Heap :=
  h.modifyBlock r (fun b => { b with slot := v })

/-- `Allocator<ReferenceCount*>::Allocate(ref, bytes)`: a fresh block whose
content is indeterminate; returns the new heap and the address. -/
def Heap.Allocate (h : Heap) (nbytes : Nat) : Heap × Nat :=
  ({ h with blocks := h.blocks ++ [⟨none, List.replicate nbytes none⟩] }, h.blocks.length)

/-- `Allocator<ReferenceCount*>::Reallocate(ref, bytes)`: the block keeps its
address and its content up to the new size; new bytes are indeterminate. -/
def Heap.Reallocate (h : Heap) (r : Nat) (nbytes : Nat) : Heap × Nat :=
  (h.modifyBlock r (fun b =>
      { b with bytes := (b.bytes ++ List.replicate (nbytes - b.bytes.length) none).take nbytes }), r)

/-- `::free(old)`. -/
def Heap.free (h : Heap) (r : Nat) : Heap :=
  { h with freed := r :: h.freed }

/-- The bytes `[off, off + len)` of block `r`. -/
def Heap.read (h : Heap) (r off len : Nat) : List Cell :=
  ((h.bytesOf r).drop off).take len

/-- Overwrite `mem` from byte `off` on with `src`; the block keeps its size. -/
def overwrite (mem : List Cell) (off : Nat) (src : List Cell) : List Cell :=
  (mem.take off ++ (src ++ mem.drop (off + src.length))).take mem.length

def Heap.write (h : Heap) (r off : Nat) (src : List Cell) : Heap :=
  h.modifyBlock r (fun b => { b with bytes := overwrite b.bytes off src })

/-- `::memcpy(dst + dstOff, src + srcOff, n)` and `::memmove`, offsets and `n`
in bytes. -/
def Heap.memcpy (h : Heap) (dst dstOff src srcOff n : Nat) : Heap :=
  h.write dst dstOff (h.read src srcOff n)

/-! ## ReferenceCount -/

/-- The value `ref.load()` of the counter at address `k`. -/
def Heap.GetValue (h : Heap) (k : Nat) : Int := h.counters.getD k 0

/-- The comparison `GetValue() > 1` of `ReferenceCount::IsShared`, made on the
value the counter holds.  (How the value reaches the comparison, through the
`const int&` that `GetValue` returns, is the subject of
`Strict.ReferenceCount.IsShared`.) -/
def Heap.IsShared (h : Heap) (k : Nat) : Bool := decide (1 < h.GetValue k)

/-- The value of an `int` after arithmetic on `std::atomic<int>`: the result
modulo `2 ^ 32`, in the range `[-2 ^ 31, 2 ^ 31)`. -/
def wrapInt (x : Int) : Int := (x + 2 ^ 31) % 2 ^ 32 - 2 ^ 31

/-- `ReferenceCount::IncrementRef`: `ref.fetch_add(1)`. -/
def Heap.IncrementRef (h : Heap) (k : Nat) : Heap :=
  { h with counters := h.counters.set k (wrapInt (h.GetValue k + 1)) }

/-- `ReferenceCount::DecrementRef`: `ref.fetch_sub(1)`. -/
def Heap.DecrementRef (h : Heap) (k : Nat) : Heap :=
  { h with counters := h.counters.set k (wrapInt (h.GetValue k - 1)) }

/-- `Allocator<ReferenceCount>::Allocate` followed by
`ParameterConstruct(.., v)`: a fresh counter with value `v`. -/
def Heap.newCounter (h : Heap) (v : Int) : Heap × Nat :=
  ({ h with counters := h.counters ++ [v] }, h.counters.length)

/-- The test `(*ref) && (*ref)->IsShared()`. -/
def Heap.slotShared (h : Heap) (r : Nat) : Bool :=
  match h.slotOf r with
  | some k => h.IsShared k
  | none => false

/-- `(*ref)->DecrementRef()` on the counter in the cell of block `r`. -/
def Heap.decrementSlot (h : Heap) (r : Nat) : Heap :=
  match h.slotOf r with
  | some k => h.DecrementRef k
  | none => h

/-! ## ListCore -/

/-- `MinimumCapacity = 32 / sizeof(Type)`. -/
def MinimumCapacity (w : Nat) : Nat := 32 / w

/-- `EnableMinimumCapacity = MinimumCapacity` converted to `bool`. -/
def EnableMinimumCapacity (w : Nat) : Bool := MinimumCapacity w != 0

/-- The exponent of the last place of the `double` nearest to the integer
`v`: the least `s` with `v / 2 ^ s < 2 ^ 53`, found by halving `v` at most
`fuel` times. -/
def lastPlace : Nat → Nat → Nat
  | 0, _ => 0
  | fuel + 1, v => if v < 2 ^ 53 then 0 else lastPlace fuel (v / 2) + 1

/-- The quotient `v / 2 ^ s` rounded to the nearest integer, a tie going to the
even one. -/
def roundHalfEven (v s : Nat) : Nat :=
  if 2 * (v % 2 ^ s) < 2 ^ s then v / 2 ^ s
  else if 2 ^ s < 2 * (v % 2 ^ s) then v / 2 ^ s + 1
  else if v / 2 ^ s % 2 = 0 then v / 2 ^ s
  else v / 2 ^ s + 1

/-- The conversion of the integer `v` to `double` (IEEE 754 binary64, rounding
to nearest): the nearest number with 53 significant bits, ties to even.  The
result is an integer again. -/
def toDouble (v : Nat) : Nat :=
  roundHalfEven v (lastPlace v v) * 2 ^ lastPlace v v

/-- The `double` product `n * 1.5` for a `size_t` value `n`, counted in halves:
`n` is converted to `double`, and the exact product `3 * d / 2` is rounded to
53 significant bits, which commutes with the division by 2. -/
def timesOneAndHalf (n : Nat) : Nat := toDouble (3 * toDouble n)

/-- The integer part of the `double` holding `halves / 2`: the value that the
conversion to `size_t` yields when it is in range. -/
def truncate (halves : Nat) : Nat := halves / 2

/-- `ListCore::CalculateCapacity`, for results that fit `size_t`: the last
branch is the value of the `double` product `initialSize * 1.5` truncated to
an integer.  `Strict.CalculateCapacity` adds the range of `size_t`. -/
def CalculateCapacity (w : Nat) (initialSize : Nat) : Nat :=
  if initialSize = 0 then 0
  else if EnableMinimumCapacity w && decide (initialSize < MinimumCapacity w) then
    MinimumCapacity w
  else truncate (timesOneAndHalf initialSize)

/-- `ListCore()`: the null state. -/
def ListCore.null : ListCore := ⟨none, none, 0, 0⟩

/-- The guard `ref && data && size`. -/
def ListCore.live (c : ListCore) : Bool :=
  c.ref.isSome && c.data.isSome && c.size != 0

/-- `AllocateData` as used by every branch that starts a fresh block:
allocate `capacity * sizeof(Type)` element bytes, clear the counter cell, and
point `ref` and `data` at the block. -/
def freshBlock (w : Nat) (h : Heap) (size capacity : Nat) : Heap × ListCore :=
  let (h1, r) := h.Allocate (capacity * w)
  (h1.setSlot r none, ⟨some r, some r, size, capacity⟩)

/-- `InitializeCore(initialSize, initialCapacity)`. -/
def InitializeCore (w : Nat) (h : Heap) (initialSize initialCapacity : Nat) : Heap × ListCore :=
  freshBlock w h initialSize initialCapacity

/-- `ListCore(size_t initialSize)`. -/
def ListCore.ofSize (w : Nat) (h : Heap) (initialSize : Nat) : Heap × ListCore :=
  InitializeCore w h initialSize (CalculateCapacity w initialSize)

/-- `ListCore(size_t initialSize, size_t initialCapacity)`. -/
def ListCore.ofSizeCapacity (w : Nat) (h : Heap) (initialSize initialCapacity : Nat) :
    Heap × ListCore :=
  InitializeCore w h initialSize initialCapacity

/-- `ListCore(const Type* initialData, size_t initialSize)`; `initialData` is
the memory behind the pointer, `none` for `nullptr`. -/
def ListCore.ofData (w : Nat) (h : Heap) (initialData : Option (List Cell)) (initialSize : Nat) :
    Heap × ListCore :=
  match initialData with
  | some src =>
    if initialSize ≠ 0 then
      let (h1, c) := InitializeCore w h initialSize (CalculateCapacity w initialSize)
      match c.data with
      | some d => (h1.write d 0 (src.take (initialSize * w)), c)
      | none => (h1, c)
    else (h, ListCore.null)
  | none => (h, ListCore.null)

/-- `ListCore(const Self& other)`: the duplicate. -/
def ListCore.copy (h : Heap) (other : ListCore) : Heap × ListCore :=
  match other.ref with
  | some r =>
    if other.data.isSome && other.size != 0 then
      match h.slotOf r with
      | some k => (h.IncrementRef k, ⟨other.ref, other.data, other.size, other.capacity⟩)
      | none =>
        let (h1, k) := h.newCounter 2
        (h1.setSlot r (some k), ⟨other.ref, other.data, other.size, other.capacity⟩)
    else (h, ListCore.null)
  | none => (h, ListCore.null)

/-- `ListCore::Detach(bool copyData)`. -/
def ListCore.Detach (w : Nat) (h : Heap) (c : ListCore) (copyData : Bool) : Heap × ListCore :=
  match c.ref, c.data with
  | some r, some oldData =>
    if c.size ≠ 0 then
      if h.slotShared r then
        let h1 := h.decrementSlot r
        let capacity := truncate (timesOneAndHalf c.size)
        let (h2, c2) := freshBlock w h1 c.size capacity
        match c2.data with
        | some d =>
          if copyData then (h2.memcpy d 0 oldData 0 (c.size * w), c2) else (h2, c2)
        | none => (h2, c2)
      else (h, c)
    else (h, c)
  | _, _ => (h, c)

/-- `ListCore::EnsureCapacity(size_t newCapacity)`. -/
def ListCore.EnsureCapacity (w : Nat) (h : Heap) (c : ListCore) (newCapacity : Nat) :
    Heap × ListCore :=
  if c.capacity < newCapacity then
    match c.ref, c.data with
    | some r, some oldData =>
      if c.size ≠ 0 then
        if h.slotShared r then
          let h1 := h.decrementSlot r
          let (h2, c2) := freshBlock w h1 c.size newCapacity
          match c2.data with
          | some d => (h2.memcpy d 0 oldData 0 (c.size * w), c2)
          | none => (h2, c2)
        else
          let (h1, r1) := h.Reallocate r (newCapacity * w)
          (h1, ⟨some r1, some r1, c.size, newCapacity⟩)
      else freshBlock w h c.size newCapacity
    | _, _ => freshBlock w h c.size newCapacity
  else (h, c)

/-- `ListCore::GrowthAppend(size_t growthSize)`.  The third component is the
returned `Type*`; it is `none` on the paths that reach the closing brace of the
function without executing a `return` statement. -/
def ListCore.GrowthAppend (w : Nat) (h : Heap) (c : ListCore) (growthSize : Nat) :
    Heap × ListCore × Option Ptr :=
  if growthSize = 0 then (h, c, some ⟨c.data, c.size⟩)
  else
    match c.ref, c.data with
    | some r, some oldData =>
      if c.size ≠ 0 then
        let oldSize := c.size
        let size := c.size + growthSize
        if h.slotShared r then
          let h1 := h.decrementSlot r
          let (h2, c2) := freshBlock w h1 size (CalculateCapacity w size)
          match c2.data with
          | some d => (h2.memcpy d 0 oldData 0 (oldSize * w), c2, none)
          | none => (h2, c2, none)
        else if c.capacity < size then
          let (h1, r1) := h.Reallocate r (CalculateCapacity w size * w)
          (h1, ⟨some r1, some r1, size, CalculateCapacity w size⟩, some ⟨some r1, oldSize⟩)
        else (h, { c with size := size }, none)
      else
        let (h1, c1) := freshBlock w h growthSize (CalculateCapacity w growthSize)
        (h1, c1, some ⟨c1.data, 0⟩)
    | _, _ =>
      let (h1, c1) := freshBlock w h growthSize (CalculateCapacity w growthSize)
      (h1, c1, some ⟨c1.data, 0⟩)

/-- `ListCore::GrowthPrepend(size_t growthSize)`. -/
def ListCore.GrowthPrepend (w : Nat) (h : Heap) (c : ListCore) (growthSize : Nat) :
    Heap × ListCore :=
  if growthSize = 0 then (h, c)
  else
    match c.ref, c.data with
    | some old, some oldData =>
      if c.size ≠ 0 then
        let oldSize := c.size
        let size := c.size + growthSize
        if h.slotShared old then
          let h1 := h.decrementSlot old
          let (h2, c2) := freshBlock w h1 size (CalculateCapacity w size)
          match c2.data with
          | some d => (h2.memcpy d (growthSize * w) oldData 0 (oldSize * w), c2)
          | none => (h2, c2)
        else if c.capacity < size then
          let capacity := CalculateCapacity w size
          let (h1, r) := h.Allocate (capacity * w)
          let h2 := h1.setSlot r (h1.slotOf old)
          let h3 := h2.memcpy r (growthSize * w) oldData 0 (oldSize * w)
          (h3.free old, ⟨some r, some r, size, capacity⟩)
        else
          (h.memcpy oldData (growthSize * w) oldData 0 (oldSize * w), { c with size := size })
      else freshBlock w h growthSize (CalculateCapacity w growthSize)
    | _, _ => freshBlock w h growthSize (CalculateCapacity w growthSize)

/-- `ListCore::GrowthInsert(size_t growthIndex, size_t growthSize)`. -/
def ListCore.GrowthInsert (w : Nat) (h : Heap) (c : ListCore) (growthIndex growthSize : Nat) :
    Heap × ListCore :=
  if growthSize = 0 then (h, c)
  else
    match c.ref, c.data with
    | some old, some oldData =>
      if c.size ≠ 0 then
        let oldSize := c.size
        let size := c.size + growthSize
        if h.slotShared old then
          let h1 := h.decrementSlot old
          let (h2, c2) := freshBlock w h1 size (CalculateCapacity w size)
          match c2.data with
          | some d =>
            let h3 := h2.memcpy d 0 oldData 0 (growthIndex * w)
            (h3.memcpy d ((growthIndex + growthSize) * w) oldData (growthIndex * w)
              ((oldSize - growthIndex) * w), c2)
          | none => (h2, c2)
        else if c.capacity < size then
          let capacity := CalculateCapacity w size
          let (h1, r) := h.Allocate (capacity * w)
          let h2 := h1.setSlot r (h1.slotOf old)
          let h3 := h2.memcpy r (growthIndex * w) oldData 0 (growthIndex * w)
          let h4 := h3.memcpy r ((growthIndex + growthSize) * w) oldData 0
            ((oldSize - growthIndex) * w)
          (h4.free old, ⟨some r, some r, size, capacity⟩)
        else
          (h.memcpy oldData ((growthIndex + growthSize) * w) oldData (growthIndex * w)
            ((oldSize - growthIndex) * w), { c with size := size })
      else freshBlock w h growthSize (CalculateCapacity w growthSize)
    | _, _ => freshBlock w h growthSize (CalculateCapacity w growthSize)

/-- `ListCore::Delete(size_t index, size_t count)`.  `PodTypeTrait::Destroy`
has an empty body.  The guard `ref && data && size` is evaluated after
`size -= count`.  The in-place `::memcpy` is passed `oldSize - index - count`
as its byte count. -/
def ListCore.Delete (w : Nat) (h : Heap) (c : ListCore) (index count : Nat) : Heap × ListCore :=
  if count = 0 then (h, c)
  else
    let oldSize := c.size
    let size := c.size - count
    match c.ref, c.data with
    | some r, some oldData =>
      if size ≠ 0 then
        if h.slotShared r then
          let h1 := h.decrementSlot r
          let (h2, c2) := freshBlock w h1 size (CalculateCapacity w size)
          match c2.data with
          | some d =>
            let h3 := h2.memcpy d 0 oldData 0 (index * w)
            (h3.memcpy d (index * w) oldData ((index + count) * w)
              ((oldSize - index - count) * w), c2)
          | none => (h2, c2)
        else
          (h.memcpy oldData (index * w) oldData ((index + count) * w) (oldSize - index - count),
            { c with size := size })
      else (h, { c with size := size })
    | _, _ => (h, { c with size := size })

/-- `ListCore::Empty()`. -/
def ListCore.Empty (h : Heap) (c : ListCore) : Heap × ListCore :=
  match c.ref, c.data with
  | some r, some _ =>
    if c.size ≠ 0 then
      if h.slotShared r then (h.decrementSlot r, ListCore.null)
      else (h, { c with size := 0 })
    else (h, c)
  | _, _ => (h, c)

/-- `ListCore::IsSharingWith`: `ref == other.ref`. -/
def ListCore.IsSharingWith (c other : ListCore) : Bool := decide (c.ref = other.ref)

/-- The elements readable through the read-only view: the first
`size * sizeof(Type)` bytes behind `data`. -/
def ListCore.contents (w : Nat) (h : Heap) (c : ListCore) : List Cell :=
  match c.data with
  | some d => h.read d 0 (c.size * w)
  | none => []

/-- `TypeTrait::Copy(p, src, n)` for the trivial strategy, with the source
outside the heap: `memcpy` of `n * sizeof(Type)` bytes to the pointer `p`. -/
def copyTo (w : Nat) (h : Heap) (p : Ptr) (src : List Cell) (n : Nat) : Heap :=
  match p.block with
  | some d => h.write d (p.offset * w) (src.take (n * w))
  | none => h

/-! ## List -/

/-- `List::Append(const Type* appendData, size_t dataSize)`.  The result is
`none` when `GrowthAppend` hands back no pointer, since the copy then has no
defined destination. -/
def List.Append (w : Nat) (h : Heap) (c : ListCore) (appendData : Option (List Cell))
    (dataSize : Nat) : Option (Heap × ListCore) :=
  match appendData with
  | some src =>
    if dataSize ≠ 0 then
      match c.GrowthAppend w h dataSize with
      | (h1, c1, some p) => some (copyTo w h1 p src dataSize, c1)
      | (_, _, none) => none
    else some (h, c)
  | none => some (h, c)

/-- `List::Prepend(const Type* prependData, size_t dataSize)`. -/
def List.Prepend (w : Nat) (h : Heap) (c : ListCore) (prependData : Option (List Cell))
    (dataSize : Nat) : Heap × ListCore :=
  match prependData with
  | some src =>
    if dataSize ≠ 0 then
      let (h1, c1) := c.GrowthPrepend w h dataSize
      (copyTo w h1 ⟨c1.data, 0⟩ src dataSize, c1)
    else (h, c)
  | none => (h, c)

/-- `List::Insert(size_t index, const Type* insertData, size_t dataSize)`. -/
def List.Insert (w : Nat) (h : Heap) (c : ListCore) (index : Nat)
    (insertData : Option (List Cell)) (dataSize : Nat) : Heap × ListCore :=
  match insertData with
  | some src =>
    if dataSize ≠ 0 then
      let (h1, c1) := c.GrowthInsert w h index dataSize
      (copyTo w h1 ⟨c1.data, index⟩ src dataSize, c1)
    else (h, c)
  | none => (h, c)

/-- `List::Delete`. -/
def List.Delete (w : Nat) (h : Heap) (c : ListCore) (index count : Nat) : Heap × ListCore :=
  c.Delete w h index count

/-- `List::Empty`. -/
def List.Empty (h : Heap) (c : ListCore) : Heap × ListCore := c.Empty h

/-- `List::List(const Type* initialData, size_t initialSize)`. -/
def List.ofData (w : Nat) (h : Heap) (initialData : Option (List Cell)) (initialSize : Nat) :
    Heap × ListCore :=
  ListCore.ofData w h initialData initialSize

/-- `List::List(const Self& other)`. -/
def List.copy (h : Heap) (other : ListCore) : Heap × ListCore := ListCore.copy h other

/-- `List::IsSharingWith`. -/
def List.IsSharingWith (c other : ListCore) : Bool := c.IsSharingWith other

/-! ## Worlds of buffers and the core operations on them -/

/-- A heap together with the live `ListCore` objects. -/
structure World where
  heap : Heap
  cores : List ListCore
deriving DecidableEq, Repr

/-- The core operations; `i` names the buffer the call is made on. -/
inductive CoreOp where
  | null
  | ofSize (initialSize : Nat)
  | ofSizeCapacity (initialSize initialCapacity : Nat)
  | ofData (initialData : Option (List Cell)) (initialSize : Nat)
  | copy (i : Nat)
  | Detach (i : Nat) (copyData : Bool)
  | EnsureCapacity (i : Nat) (newCapacity : Nat)
  | GrowthAppend (i : Nat) (growthSize : Nat)
  | GrowthPrepend (i : Nat) (growthSize : Nat)
  | GrowthInsert (i : Nat) (growthIndex growthSize : Nat)
  | Delete (i : Nat) (index count : Nat)
  | Empty (i : Nat)
deriving DecidableEq, Repr

/-- The arguments are valid: `initialCapacity >= initialSize` (the source
asserts it) and delete ranges lie within the buffer. -/
def CoreOp.valid (wld : World) : CoreOp → Prop
  | .ofSizeCapacity n cap => n ≤ cap
  | .Delete i index count => ∀ c, wld.cores[i]? = some c → index + count ≤ c.size
  | _ => True

/-- Add a freshly constructed buffer to the world. -/
def World.push (r : Heap × ListCore) (wld : World) : World :=
  ⟨r.1, wld.cores ++ [r.2]⟩

/-- The buffer `c` is consistent with the heap `h` for element size `w`:
`data` sits behind `ref`, a buffer without a block is the null buffer, the
block has room for `capacity` elements, and `size <= capacity`. -/
structure WellFormed (w : Nat) (h : Heap) (c : ListCore) : Prop where
  data_eq : c.data = c.ref
  size_le : c.size ≤ c.capacity
  null_zero : c.ref = none → c.size = 0 ∧ c.capacity = 0
  block : ∀ r, c.ref = some r → r < h.blocks.length ∧ (h.bytesOf r).length = c.capacity * w

/-- A counter in the cell of the buffer's block is allocated and counts at
least one owner.  Counters start at 2 and are only decremented while they
exceed 1. -/
def CounterValid (h : Heap) (c : ListCore) : Prop :=
  ∀ r k, c.ref = some r → h.slotOf r = some k → k < h.counters.length ∧ 1 ≤ h.GetValue k

/-! ## Queries, searches and the list-argument overloads -/

/-- `ListCore::IsEmpty`: `!(ref && data && size)`. -/
def ListCore.IsEmpty (c : ListCore) : Bool :=
  !(c.ref.isSome && c.data.isSome && c.size != 0)

/-- `ListCore::IsNull`: `!(ref && data && capacity)`. -/
def ListCore.IsNull (c : ListCore) : Bool :=
  !(c.ref.isSome && c.data.isSome && c.capacity != 0)

/-- `ListCore::IsEmptyOrNull`: `!(ref && data && size && capacity)`. -/
def ListCore.IsEmptyOrNull (c : ListCore) : Bool :=
  !(c.ref.isSome && c.data.isSome && c.size != 0 && c.capacity != 0)

/-- `ListCore::IsShared`: `(*(ref))->IsShared()`.  The result is `none` when
the call dereferences a null pointer: `ref` itself, or the counter cell
`*ref`. -/
def ListCore.IsShared (h : Heap) (c : ListCore) : Option Bool :=
  match c.ref with
  | some r =>
    match h.slotOf r with
    | some k => some (h.IsShared k)
    | none => none
  | none => none

/-- `List::IsShared`. -/
def List.IsShared (h : Heap) (c : ListCore) : Option Bool := c.IsShared h

/-- `List::GetConstData`: hands out `core.data`; the buffer and the heap are
passed through untouched. -/
def List.GetConstData (h : Heap) (c : ListCore) : Heap × ListCore × Option Nat :=
  (h, c, c.data)

/-- The value `-1` converted to `size_t` (64 bits). -/
def npos : Nat := 2 ^ 64 - 1

/-- The unsigned integer stored in a run of bytes, least significant byte
first; an indeterminate byte reads as 0. -/
def decode (bs : List Cell) : Nat :=
  bs.foldr (fun b acc => b.getD 0 + 256 * acc) 0

/-- The element `data[index]` read as an unsigned integer of `w` bytes; `none`
when the read falls outside the block behind `data`. -/
def ListCore.elem (w : Nat) (h : Heap) (c : ListCore) (index : Nat) : Option Nat :=
  match c.data with
  | some d =>
    if (index + 1) * w ≤ (h.bytesOf d).length then some (decode (h.read d (index * w) w))
    else none
  | none => none

/-- `TypeTrait::Equals`: 0 when equal, -1 when `left < right`, 1 otherwise. -/
def TypeTrait.Equals (left right : Nat) : Int :=
  if left = right then 0 else if left < right then -1 else 1

/-- The loop of `ListCore::IndexOf` with `remaining` iterations to go; the
`int` returned by `Equals` is used as the condition of the `if`. -/
def ListCore.IndexOf.scan (w : Nat) (h : Heap) (c : ListCore) (value : Nat) : Nat → Option Nat
  | 0 => some npos
  | remaining + 1 =>
    match c.elem w h (c.size - (remaining + 1)) with
    | some x =>
      if TypeTrait.Equals x value ≠ 0 then some (c.size - (remaining + 1))
      else ListCore.IndexOf.scan w h c value remaining
    | none => none

/-- `ListCore::IndexOf`; `none` when an element is read outside the storage. -/
def ListCore.IndexOf (w : Nat) (h : Heap) (c : ListCore) (value : Nat) : Option Nat :=
  ListCore.IndexOf.scan w h c value c.size

/-- The loop of `ListCore::LastIndexOf` from `index` downwards; it stops when
`index > 0` fails. -/
def ListCore.LastIndexOf.scan (w : Nat) (h : Heap) (c : ListCore) (value : Nat) :
    Nat → Option Nat
  | 0 => some npos
  | index + 1 =>
    match c.elem w h (index + 1) with
    | some x =>
      if TypeTrait.Equals x value ≠ 0 then some (index + 1)
      else ListCore.LastIndexOf.scan w h c value index
    | none => none

/-- `ListCore::LastIndexOf`: the scan starts at `size - 1` in `size_t`
arithmetic; `none` when an element is read outside the storage. -/
def ListCore.LastIndexOf (w : Nat) (h : Heap) (c : ListCore) (value : Nat) : Option Nat :=
  ListCore.LastIndexOf.scan w h c value ((c.size + 2 ^ 64 - 1) % 2 ^ 64)

/-- `ListCore::IsExist`: `IndexOf(value) != -1`. -/
def ListCore.IsExist (w : Nat) (h : Heap) (c : ListCore) (value : Nat) : Option Bool :=
  (c.IndexOf w h value).map fun i => i != npos

/-- `TypeTrait::Copy(p, src, n)` for the trivial strategy with the source
inside the heap. -/
def copyWithin (w : Nat) (h : Heap) (p : Ptr) (src : Option Nat) (n : Nat) : Heap :=
  match p.block, src with
  | some d, some s => h.memcpy d (p.offset * w) s 0 (n * w)
  | _, _ => h

/-- `List::Append(const Self& appendList)`. -/
def List.AppendList (w : Nat) (h : Heap) (c : ListCore) (appendList : ListCore) :
    Option (Heap × ListCore) :=
  if appendList.live then
    if !c.live then some (List.copy h appendList)
    else
      match c.GrowthAppend w h appendList.size with
      | (h1, c1, some p) => some (copyWithin w h1 p appendList.data appendList.size, c1)
      | (_, _, none) => none
  else some (h, c)

/-- `List::Append(const Self& appendList, size_t listSize)`. -/
def List.AppendListSize (w : Nat) (h : Heap) (c : ListCore) (appendList : ListCore)
    (listSize : Nat) : Option (Heap × ListCore) :=
  if listSize = appendList.size then List.AppendList w h c appendList
  else if appendList.ref.isSome && appendList.data.isSome && listSize != 0 then
    if !c.live then some (List.copy h appendList)
    else
      match c.GrowthAppend w h listSize with
      | (h1, c1, some p) => some (copyWithin w h1 p appendList.data listSize, c1)
      | (_, _, none) => none
  else some (h, c)

/-- `List::Prepend(const Self& prependList)`. -/
def List.PrependList (w : Nat) (h : Heap) (c : ListCore) (prependList : ListCore) :
    Heap × ListCore :=
  if prependList.live then
    if !c.live then List.copy h prependList
    else
      let (h1, c1) := c.GrowthPrepend w h prependList.size
      (copyWithin w h1 ⟨c1.data, 0⟩ prependList.data prependList.size, c1)
  else (h, c)

/-- `List::Prepend(const Self& prependList, size_t listSize)`. -/
def List.PrependListSize (w : Nat) (h : Heap) (c : ListCore) (prependList : ListCore)
    (listSize : Nat) : Heap × ListCore :=
  if prependList.size ≤ listSize then List.PrependList w h c prependList
  else if prependList.ref.isSome && prependList.data.isSome && listSize != 0 then
    if !c.live then List.copy h prependList
    else
      let (h1, c1) := c.GrowthPrepend w h listSize
      (copyWithin w h1 ⟨c1.data, 0⟩ prependList.data listSize, c1)
  else (h, c)

/-- `List::Insert(size_t index, const Self& insertList)`. -/
def List.InsertList (w : Nat) (h : Heap) (c : ListCore) (index : Nat) (insertList : ListCore) :
    Heap × ListCore :=
  if insertList.live then
    if !c.live then (h, c)
    else
      let (h1, c1) := c.GrowthInsert w h index insertList.size
      (copyWithin w h1 ⟨c1.data, index⟩ insertList.data insertList.size, c1)
  else (h, c)

/-- `List::Insert(size_t index, const Self& insertList, size_t listSize)`. -/
def List.InsertListSize (w : Nat) (h : Heap) (c : ListCore) (index : Nat)
    (insertList : ListCore) (listSize : Nat) : Heap × ListCore :=
  if insertList.size ≤ listSize then List.InsertList w h c index insertList
  else if insertList.ref.isSome && insertList.data.isSome && listSize != 0 then
    if !c.live then (h, c)
    else
      let (h1, c1) := c.GrowthInsert w h index listSize
      (copyWithin w h1 ⟨c1.data, index⟩ insertList.data listSize, c1)
  else (h, c)

/-- `GenericTypeTrait::Destroy(ptr, count)` with `ptr = data + first`: the
indices of the elements whose destructor runs, in order. -/
def GenericTypeTrait.Destroy (first : Nat) : Nat → List Nat
  | 0 => []
  | count + 1 => first :: GenericTypeTrait.Destroy (first + 1) count

/-- The destructor calls `ListCore::Delete(index, count)` makes for a managed
element type: `TypeTrait::Destroy(data + index, count)` sits in the unshared
branch, behind the guard `ref && data && size` that is evaluated after
`size -= count`. -/
def ListCore.DeleteDestroys (h : Heap) (c : ListCore) (index count : Nat) : List Nat :=
  if count = 0 then []
  else
    match c.ref, c.data with
    | some r, some _ =>
      if c.size - count ≠ 0 then
        if h.slotShared r then [] else GenericTypeTrait.Destroy index count
      else []
    | _, _ => []

/-! ## Managed copy, range comparison and the truncating duplicate -/

/-- The loop of `GenericTypeTrait::Copy(dest, src, size)`, run for at most
`fuel` evaluations of its condition `size > 0`.  `i` counts the
copy-constructions already made (`dest` and `src` have both advanced by `i`);
each iteration runs `new(dest)T(*src)` and the increment `++dest, ++src`,
which leaves `size` as it is.  The result is the destination memory, the
number of copy-constructions made, and whether the condition was found false
(the loop was left). -/
def GenericTypeTrait.Copy (src : List Nat) (size : Nat) :
    Nat → Nat → List (Option Nat) → List (Option Nat) × Nat × Bool
  | 0, i, dest => (dest, i, false)
  | fuel + 1, i, dest =>
    if 0 < size then GenericTypeTrait.Copy src size fuel (i + 1) (dest.set i src[i]?)
    else (dest, i, true)

/-- `PodTypeTrait::Copy(dest, src, size)` on element-typed memory: `memcpy` of
`size` elements. -/
def PodTypeTrait.Copy (src : List Nat) (size : Nat) (dest : List (Option Nat)) :
    List (Option Nat) :=
  ((src.take size).map some ++ dest.drop size).take dest.length

/-- `TypeTrait::Compare(left, right, size)` with both pointers advanced by
`i`: the loop condition first stores `Equals(*left, *right)` in `rtn` and only
then tests `size > 0`.  `left` and `right` are the memory behind the two
pointers; the result is `none` when an element is read outside of it. -/
def TypeTrait.Compare (left right : List Nat) : Nat → Nat → Option Int
  | i, 0 =>
    match left[i]?, right[i]? with
    | some x, some y => some (TypeTrait.Equals x y)
    | _, _ => none
  | i, size + 1 =>
    match left[i]?, right[i]? with
    | some x, some y =>
      if TypeTrait.Equals x y = 0 then TypeTrait.Compare left right (i + 1) size
      else some (TypeTrait.Equals x y)
    | _, _ => none

/-- `ListCore(const Self& other, size_t size)`.  The first `if` constructs the
duplicate in place; control then reaches the second `if`, which constructs
the object again, from the raw run `other.data` or as the null buffer. -/
def ListCore.copySize (w : Nat) (h : Heap) (other : ListCore) (size : Nat) : Heap × ListCore :=
  let h1 := if size = other.size then (ListCore.copy h other).1 else h
  if size ≠ 0 ∧ other.live = true then
    ListCore.ofData w h1 (other.data.map h1.bytesOf) size
  else (h1, ListCore.null)

/-- `List::List(const Self& other, size_t size)`. -/
def List.copySize (w : Nat) (h : Heap) (other : ListCore) (size : Nat) : Heap × ListCore :=
  ListCore.copySize w h other size

/-- The number of live buffers whose storage is the block `r`. -/
def World.owners (wld : World) (r : Nat) : Nat :=
  (wld.cores.filter fun c => decide (c.ref = some r)).length

/-! ## The operations with every read and every conversion accounted for

The definitions of this section follow the same source lines as the ones
above and add what those leave out: the lifetime of the object behind the
reference that `ReferenceCount::GetValue` returns, the range of `size_t`
(64 bits) in every sum, difference and product, the range of the conversion
from `double`, the bounds and the overlap of every `::memcpy`, and the
rule that a function returning a value must leave through a `return`
statement.  A result of `none` means that the call has undefined behaviour.
`sizeof(ReferenceCount*)` is 8. -/

namespace Strict

/-- The reduction of `size_t` arithmetic: modulo `2 ^ 64`. -/
def wrap (n : Nat) : Nat := n % 2 ^ 64

/-- The difference `a - b` of two `size_t` values. -/
def minus (a b : Nat) : Nat := wrap (a + (2 ^ 64 - wrap b))

/-- A `const int&`: the value of the object referred to, and whether the
lifetime of that object is still running. -/
structure IntRef where
  value : Int
  alive : Bool
deriving DecidableEq, Repr

/-- `ReferenceCount::GetValue`: `return ref.load(..)` in a function whose
return type is `const int&`.  The reference is bound to the temporary that
holds the loaded value, and that temporary is destroyed when the `return`
statement completes. -/
def ReferenceCount.GetValue (ref : Int) : IntRef := ⟨ref, false⟩

/-- The read of an `int` through a reference; it has no defined result once
the object referred to is gone. -/
def IntRef.read (r : IntRef) : Option Int :=
  if r.alive then some r.value else none

/-- `ReferenceCount::IsShared`: `GetValue() > 1`. -/
def ReferenceCount.IsShared (ref : Int) : Option Bool :=
  match (ReferenceCount.GetValue ref).read with
  | some v => some (decide (1 < v))
  | none => none

/-- The test `(*ref) && (*ref)->IsShared()` on the block at address `r`:
`IsShared` is called only when the cell holds a counter. -/
def slotShared (h : Heap) (r : Nat) : Option Bool :=
  match h.slotOf r with
  | some k => ReferenceCount.IsShared (h.GetValue k)
  | none => some false

/-- The conversion to `size_t` of the `double` holding `halves / 2`: the
integer part, and undefined when that is not a `size_t` value. -/
def doubleToSize (halves : Nat) : Option Nat :=
  if truncate halves < 2 ^ 64 then some (truncate halves) else none

/-- `ListCore::CalculateCapacity`. -/
def CalculateCapacity (w : Nat) (initialSize : Nat) : Option Nat :=
  if initialSize = 0 then some 0
  else if EnableMinimumCapacity w && decide (initialSize < MinimumCapacity w) then
    some (MinimumCapacity w)
  else doubleToSize (timesOneAndHalf initialSize)

/-- The byte count `sizeof(ReferenceCount*) + capacity * sizeof(Type)`. -/
def blockBytes (w capacity : Nat) : Nat := wrap (8 + capacity * w)

/-- `AllocateData`, and the same three statements where the other members
repeat them: allocate `blockBytes` bytes, store `nullptr` in the counter cell,
point `data` behind it.  The store is outside the block when the byte count
has wrapped below the size of the cell. -/
def AllocateData (w : Nat) (h : Heap) (capacity : Nat) : Option (Heap × Nat) :=
  if blockBytes w capacity < 8 then none
  else
    let (h1, r) := h.Allocate (blockBytes w capacity - 8)
    some (h1.setSlot r none, r)

/-- `Allocator<ReferenceCount*>::Reallocate(ref, blockBytes)`.  A block whose
byte count has wrapped below the size of the counter cell no longer holds the
cell that `ref` points at. -/
def Reallocate (w : Nat) (h : Heap) (r : Nat) (capacity : Nat) : Option (Heap × Nat) :=
  if blockBytes w capacity < 8 then none
  else some (h.Reallocate r (blockBytes w capacity - 8))

/-- `::memmove(dst + dstOff, src + srcOff, n)`, offsets and `n` in bytes: both
ranges must lie inside their blocks. -/
def memmove (h : Heap) (dst dstOff src srcOff n : Nat) : Option Heap :=
  if srcOff + n ≤ (h.bytesOf src).length ∧ dstOff + n ≤ (h.bytesOf dst).length then
    some (h.memcpy dst dstOff src srcOff n)
  else none

/-- `::memcpy(dst + dstOff, src + srcOff, n)`: as `::memmove`, and the two
ranges must not overlap. -/
def memcpy (h : Heap) (dst dstOff src srcOff n : Nat) : Option Heap :=
  if dst = src ∧ dstOff < srcOff + n ∧ srcOff < dstOff + n then none
  else memmove h dst dstOff src srcOff n

/-- `TypeTrait::Copy(p, src, n)` and `TypeTrait::Assign(p, val)` for the
trivial strategy, with the source outside the heap: `::memcpy` of
`n * sizeof(Type)` bytes to the pointer `p`. -/
def copyTo (w : Nat) (h : Heap) (p : Ptr) (src : List Cell) (n : Nat) : Option Heap :=
  match p.block with
  | some d =>
    if wrap (n * w) ≤ src.length ∧ p.offset * w + wrap (n * w) ≤ (h.bytesOf d).length then
      some (h.write d (p.offset * w) (src.take (wrap (n * w))))
    else none
  | none => none

/-- `InitializeCore(initialSize, initialCapacity)`.  The `assert` is the
validity of the arguments, see `CoreOp.valid`. -/
def InitializeCore (w : Nat) (h : Heap) (initialSize initialCapacity : Nat) :
    Option (Heap × ListCore) :=
  match AllocateData w h initialCapacity with
  | some (h1, r) => some (h1, ⟨some r, some r, initialSize, initialCapacity⟩)
  | none => none

/-- `ListCore(size_t initialSize)`. -/
def ListCore.ofSize (w : Nat) (h : Heap) (initialSize : Nat) : Option (Heap × ListCore) :=
  match CalculateCapacity w initialSize with
  | some capacity => InitializeCore w h initialSize capacity
  | none => none

/-- `ListCore(size_t initialSize, size_t initialCapacity)`. -/
def ListCore.ofSizeCapacity (w : Nat) (h : Heap) (initialSize initialCapacity : Nat) :
    Option (Heap × ListCore) :=
  InitializeCore w h initialSize initialCapacity

/-- `ListCore(const Type* initialData, size_t initialSize)`; `initialData` is
the memory behind the pointer, `none` for `nullptr`. -/
def ListCore.ofData (w : Nat) (h : Heap) (initialData : Option (List Cell)) (initialSize : Nat) :
    Option (Heap × ListCore) :=
  match initialData with
  | some src =>
    if initialSize ≠ 0 then
      match ListCore.ofSize w h initialSize with
      | some (h1, c) =>
        match copyTo w h1 ⟨c.data, 0⟩ src initialSize with
        | some h2 => some (h2, c)
        | none => none
      | none => none
    else some (h, ListCore.null)
  | none => some (h, ListCore.null)

/-- The branch `size = growthSize; capacity = CalculateCapacity(size);
Allocate; (*ref) = nullptr; data = ref + 1` that the three growth members
take on a buffer without elements. -/
def startFresh (w : Nat) (h : Heap) (growthSize : Nat) : Option (Heap × ListCore) :=
  match CalculateCapacity w growthSize with
  | some capacity => InitializeCore w h growthSize capacity
  | none => none

/-- `ListCore::Detach(bool copyData)`. -/
def ListCore.Detach (w : Nat) (h : Heap) (c : ListCore) (copyData : Bool) :
    Option (Heap × ListCore) :=
  match c.ref, c.data with
  | some r, some oldData =>
    if c.size ≠ 0 then
      match slotShared h r with
      | some true =>
        match doubleToSize (timesOneAndHalf c.size) with
        | some capacity =>
          match AllocateData w (h.decrementSlot r) capacity with
          | some (h2, r2) =>
            if copyData then
              match memcpy h2 r2 0 oldData 0 (wrap (c.size * w)) with
              | some h3 => some (h3, ⟨some r2, some r2, c.size, capacity⟩)
              | none => none
            else some (h2, ⟨some r2, some r2, c.size, capacity⟩)
          | none => none
        | none => none
      | some false => some (h, c)
      | none => none
    else some (h, c)
  | _, _ => some (h, c)

/-- `ListCore::EnsureCapacity(size_t newCapacity)`. -/
def ListCore.EnsureCapacity (w : Nat) (h : Heap) (c : ListCore) (newCapacity : Nat) :
    Option (Heap × ListCore) :=
  if c.capacity < newCapacity then
    match c.ref, c.data with
    | some r, some oldData =>
      if c.size ≠ 0 then
        match slotShared h r with
        | some true =>
          match AllocateData w (h.decrementSlot r) newCapacity with
          | some (h2, r2) =>
            match memcpy h2 r2 0 oldData 0 (wrap (c.size * w)) with
            | some h3 => some (h3, ⟨some r2, some r2, c.size, newCapacity⟩)
            | none => none
          | none => none
        | some false =>
          match Reallocate w h r newCapacity with
          | some (h1, r1) => some (h1, ⟨some r1, some r1, c.size, newCapacity⟩)
          | none => none
        | none => none
      else
        match AllocateData w h newCapacity with
        | some (h1, r1) => some (h1, ⟨some r1, some r1, c.size, newCapacity⟩)
        | none => none
    | _, _ =>
      match AllocateData w h newCapacity with
      | some (h1, r1) => some (h1, ⟨some r1, some r1, c.size, newCapacity⟩)
      | none => none
  else some (h, c)

/-- `ListCore::GrowthAppend(size_t growthSize)`, with the returned `Type*`.
The shared branch and the branch that finds room reach the closing brace of
the function without a `return` statement. -/
def ListCore.GrowthAppend (w : Nat) (h : Heap) (c : ListCore) (growthSize : Nat) :
    Option (Heap × ListCore × Ptr) :=
  if growthSize = 0 then some (h, c, ⟨c.data, c.size⟩)
  else
    match c.ref, c.data with
    | some r, some _ =>
      if c.size ≠ 0 then
        match slotShared h r with
        | some true => none -- decrement, allocate, copy, closing brace
        | some false =>
          if c.capacity < wrap (c.size + growthSize) then
            match CalculateCapacity w (wrap (c.size + growthSize)) with
            | some capacity =>
              match Reallocate w h r capacity with
              | some (h1, r1) =>
                some (h1, ⟨some r1, some r1, wrap (c.size + growthSize), capacity⟩,
                  ⟨some r1, c.size⟩)
              | none => none
            | none => none
          else none -- closing brace
        | none => none
      else
        match startFresh w h growthSize with
        | some (h1, c1) => some (h1, c1, ⟨c1.data, 0⟩)
        | none => none
    | _, _ =>
      match startFresh w h growthSize with
      | some (h1, c1) => some (h1, c1, ⟨c1.data, 0⟩)
      | none => none

/-- `ListCore::GrowthPrepend(size_t growthSize)`. -/
def ListCore.GrowthPrepend (w : Nat) (h : Heap) (c : ListCore) (growthSize : Nat) :
    Option (Heap × ListCore) :=
  if growthSize = 0 then some (h, c)
  else
    match c.ref, c.data with
    | some old, some oldData =>
      if c.size ≠ 0 then
        match slotShared h old with
        | some true =>
          match CalculateCapacity w (wrap (c.size + growthSize)) with
          | some capacity =>
            match AllocateData w (h.decrementSlot old) capacity with
            | some (h2, r2) =>
              match memcpy h2 r2 (growthSize * w) oldData 0 (wrap (c.size * w)) with
              | some h3 => some (h3, ⟨some r2, some r2, wrap (c.size + growthSize), capacity⟩)
              | none => none
            | none => none
          | none => none
        | some false =>
          if c.capacity < wrap (c.size + growthSize) then
            match CalculateCapacity w (wrap (c.size + growthSize)) with
            | some capacity =>
              match AllocateData w h capacity with
              | some (h1, r) =>
                match memcpy (h1.setSlot r (h1.slotOf old)) r (growthSize * w) oldData 0
                    (wrap (c.size * w)) with
                | some h3 =>
                  some (h3.free old, ⟨some r, some r, wrap (c.size + growthSize), capacity⟩)
                | none => none
              | none => none
            | none => none
          else
            match memmove h oldData (growthSize * w) oldData 0 (wrap (c.size * w)) with
            | some h1 => some (h1, { c with size := wrap (c.size + growthSize) })
            | none => none
        | none => none
      else startFresh w h growthSize
    | _, _ => startFresh w h growthSize

/-- `ListCore::GrowthInsert(size_t growthIndex, size_t growthSize)`. -/
def ListCore.GrowthInsert (w : Nat) (h : Heap) (c : ListCore) (growthIndex growthSize : Nat) :
    Option (Heap × ListCore) :=
  if growthSize = 0 then some (h, c)
  else
    match c.ref, c.data with
    | some old, some oldData =>
      if c.size ≠ 0 then
        match slotShared h old with
        | some true =>
          match CalculateCapacity w (wrap (c.size + growthSize)) with
          | some capacity =>
            match AllocateData w (h.decrementSlot old) capacity with
            | some (h2, r2) =>
              match memcpy h2 r2 0 oldData 0 (wrap (growthIndex * w)) with
              | some h3 =>
                match memcpy h3 r2 ((growthIndex + growthSize) * w) oldData (growthIndex * w)
                    (wrap (minus c.size growthIndex * w)) with
                | some h4 =>
                  some (h4, ⟨some r2, some r2, wrap (c.size + growthSize), capacity⟩)
                | none => none
              | none => none
            | none => none
          | none => none
        | some false =>
          if c.capacity < wrap (c.size + growthSize) then
            match CalculateCapacity w (wrap (c.size + growthSize)) with
            | some capacity =>
              match AllocateData w h capacity with
              | some (h1, r) =>
                match memcpy (h1.setSlot r (h1.slotOf old)) r (growthIndex * w) oldData 0
                    (wrap (growthIndex * w)) with
                | some h3 =>
                  match memcpy h3 r ((growthIndex + growthSize) * w) oldData 0
                      (wrap (minus c.size growthIndex * w)) with
                  | some h4 =>
                    some (h4.free old,
                      ⟨some r, some r, wrap (c.size + growthSize), capacity⟩)
                  | none => none
                | none => none
              | none => none
            | none => none
          else
            match memmove h oldData ((growthIndex + growthSize) * w) oldData (growthIndex * w)
                (wrap (minus c.size growthIndex * w)) with
            | some h1 => some (h1, { c with size := wrap (c.size + growthSize) })
            | none => none
        | none => none
      else startFresh w h growthSize
    | _, _ => startFresh w h growthSize

/-- `ListCore::Delete(size_t index, size_t count)`.  `PodTypeTrait::Destroy`
has an empty body.  The guard `ref && data && size` is evaluated after
`size -= count`, and the in-place `::memcpy` is passed
`oldSize - index - count` as its byte count. -/
def ListCore.Delete (w : Nat) (h : Heap) (c : ListCore) (index count : Nat) :
    Option (Heap × ListCore) :=
  if count = 0 then some (h, c)
  else
    match c.ref, c.data with
    | some r, some oldData =>
      if minus c.size count ≠ 0 then
        match slotShared h r with
        | some true =>
          match CalculateCapacity w (minus c.size count) with
          | some capacity =>
            match AllocateData w (h.decrementSlot r) capacity with
            | some (h2, r2) =>
              match memcpy h2 r2 0 oldData 0 (wrap (index * w)) with
              | some h3 =>
                match memcpy h3 r2 (index * w) oldData ((index + count) * w)
                    (wrap (minus (minus c.size index) count * w)) with
                | some h4 => some (h4, ⟨some r2, some r2, minus c.size count, capacity⟩)
                | none => none
              | none => none
            | none => none
          | none => none
        | some false =>
          match memcpy h oldData (index * w) oldData ((index + count) * w)
              (minus (minus c.size index) count) with
          | some h1 => some (h1, { c with size := minus c.size count })
          | none => none
        | none => none
      else some (h, { c with size := minus c.size count })
    | _, _ => some (h, { c with size := minus c.size count })

/-- `ListCore::Empty()`. -/
def ListCore.Empty (h : Heap) (c : ListCore) : Option (Heap × ListCore) :=
  match c.ref, c.data with
  | some r, some _ =>
    if c.size ≠ 0 then
      match slotShared h r with
      | some true => some (h.decrementSlot r, ListCore.null)
      | some false => some (h, { c with size := 0 })
      | none => none
    else some (h, c)
  | _, _ => some (h, c)

/-- `List::Append(const Type& appendValue)`; `appendValue` is the object
representation of the value. -/
def List.AppendValue (w : Nat) (h : Heap) (c : ListCore) (appendValue : List Cell) :
    Option (Heap × ListCore) :=
  match ListCore.GrowthAppend w h c 1 with
  | some (h1, c1, p) =>
    match copyTo w h1 p appendValue 1 with
    | some h2 => some (h2, c1)
    | none => none
  | none => none

/-- `List::Prepend(const Type* prependData, size_t dataSize)`. -/
def List.Prepend (w : Nat) (h : Heap) (c : ListCore) (prependData : Option (List Cell))
    (dataSize : Nat) : Option (Heap × ListCore) :=
  match prependData with
  | some src =>
    if dataSize ≠ 0 then
      match ListCore.GrowthPrepend w h c dataSize with
      | some (h1, c1) =>
        match copyTo w h1 ⟨c1.data, 0⟩ src dataSize with
        | some h2 => some (h2, c1)
        | none => none
      | none => none
    else some (h, c)
  | none => some (h, c)

/-- `List::Empty`. -/
def List.Empty (h : Heap) (c : ListCore) : Option (Heap × ListCore) := ListCore.Empty h c

/-- `List::GetData`: detach with copy, then hand out `core.data`. -/
def List.GetData (w : Nat) (h : Heap) (c : ListCore) : Option (Heap × ListCore) :=
  ListCore.Detach w h c true

/-- Run a member function on buffer `i` of the world. -/
def World.update (wld : World) (i : Nat) (f : Heap → ListCore → Option (Heap × ListCore)) :
    Option World :=
  match wld.cores[i]? with
  | some c =>
    match f wld.heap c with
    | some s => some ⟨s.1, wld.cores.set i s.2⟩
    | none => none
  | none => none

/-- Construct a buffer and add it to the world. -/
def World.construct (wld : World) (r : Option (Heap × ListCore)) : Option World :=
  match r with
  | some s => some (wld.push s)
  | none => none

/-- One core operation applied to a world, for element size `w`; `none` when
the call has undefined behaviour or names a buffer that does not exist. -/
def World.step (w : Nat) (wld : World) : CoreOp → Option World
  | .null => some (wld.push (wld.heap, ListCore.null))
  | .ofSize n => World.construct wld (ListCore.ofSize w wld.heap n)
  | .ofSizeCapacity n cap => World.construct wld (ListCore.ofSizeCapacity w wld.heap n cap)
  | .ofData d n => World.construct wld (ListCore.ofData w wld.heap d n)
  | .copy i =>
    match wld.cores[i]? with
    | some c => some (wld.push (Escapist.ListCore.copy wld.heap c))
    | none => none
  | .Detach i b => World.update wld i (fun h c => ListCore.Detach w h c b)
  | .EnsureCapacity i n => World.update wld i (fun h c => ListCore.EnsureCapacity w h c n)
  | .GrowthAppend i g =>
    World.update wld i (fun h c =>
      match ListCore.GrowthAppend w h c g with
      | some s => some (s.1, s.2.1)
      | none => none)
  | .GrowthPrepend i g => World.update wld i (fun h c => ListCore.GrowthPrepend w h c g)
  | .GrowthInsert i k g => World.update wld i (fun h c => ListCore.GrowthInsert w h c k g)
  | .Delete i k n => World.update wld i (fun h c => ListCore.Delete w h c k n)
  | .Empty i => World.update wld i (fun h c => ListCore.Empty h c)

/-- Every `size_t` argument of the call is a `size_t` value. -/
def inRange : CoreOp → Prop
  | .ofSize n => n < 2 ^ 64
  | .ofSizeCapacity n cap => n < 2 ^ 64 ∧ cap < 2 ^ 64
  | .ofData _ n => n < 2 ^ 64
  | .EnsureCapacity _ n => n < 2 ^ 64
  | .GrowthAppend _ g => g < 2 ^ 64
  | .GrowthPrepend _ g => g < 2 ^ 64
  | .GrowthInsert _ k g => k < 2 ^ 64 ∧ g < 2 ^ 64
  | .Delete _ k n => k < 2 ^ 64 ∧ n < 2 ^ 64
  | _ => True

/-- The worlds reachable from nothing through core operations that are called
with valid arguments and have defined behaviour. -/
inductive Reachable (w : Nat) : World → Prop where
  | init : Reachable w ⟨Heap.empty, []⟩
  | step {wld next : World} (op : CoreOp) :
      Reachable w wld → op.valid wld → inRange op → World.step w wld op = some next →
      Reachable w next

end Strict

/-! ## Example buffers -/

/-- The object representation of the unsigned integer `x` in `w` bytes, least
significant byte first. -/
def le (w x : Nat) : List Cell :=
  (List.range w).map fun i => some (x / 256 ^ i % 256)

/-- The memory holding the integers `xs`, each `w` bytes wide. -/
def run (w : Nat) (xs : List Nat) : List Cell :=
  (xs.map (le w)).flatten

/-- The one-byte buffer `[a, b, c]`, built by `List<char>(arr, 3)`. -/
def abc : Heap × ListCore := List.ofData 1 Heap.empty (some (run 1 [97, 98, 99])) 3

/-- The buffer `abc` and its duplicate `List<char>(abc)`. -/
def abcDup : Heap × ListCore := List.copy abc.1 abc.2

/-- Five four-byte integers `[a, b, c, d, e]`, built by `List<int>(arr, 5)`. -/
def ints : Heap × ListCore :=
  List.ofData 4 Heap.empty (some (run 4 [16843009, 33686018, 50529027, 67372036, 84215045])) 5

/-- Three eight-byte integers `[1, 2, 3]`, built by `List<long long>(arr, 3)`;
the capacity is 4. -/
def longs : Heap × ListCore := List.ofData 8 Heap.empty (some (run 8 [1, 2, 3])) 3

/-- An allocated buffer of size 0, built by `List<char>(0, 4)`. -/
def emptyAllocated : Heap × ListCore := ListCore.ofSizeCapacity 1 Heap.empty 0 4

/-- The duplicate of `abc` after `Delete(0, 3)`: size 0, still pointing at
the block it shares with `abc`. -/
def abcEmptied : Heap × ListCore := List.Delete 1 abcDup.1 abcDup.2 0 3

/-- The buffer built by `List<char>(0)`. -/
def sizedZero : Heap × ListCore := ListCore.ofSize 1 Heap.empty 0

/-- The storage of a buffer of three 32-byte managed elements, built from the
null state by three single-element prepends. -/
def managed : Heap × ListCore :=
  let s1 := ListCore.GrowthPrepend 32 Heap.empty ListCore.null 1
  let s2 := ListCore.GrowthPrepend 32 s1.1 s1.2 1
  ListCore.GrowthPrepend 32 s2.1 s2.2 1

/-- The one-byte buffer `[a]`, built by `List<char>(arr, 1)`. -/
def justA : Heap × ListCore := List.ofData 1 Heap.empty (some (run 1 [97])) 1

/-- The buffer `abc` and `List<char>(abc, 3)`, its duplicate with the
truncation length 3. -/
def abcTruncated : World :=
  ⟨(List.copySize 1 abc.1 abc.2 3).1, [abc.2, (List.copySize 1 abc.1 abc.2 3).2]⟩

/-- The buffer `abc` and its duplicate after the duplicate has deleted its
whole range and then grown by one slot at the front. -/
def abcRegrown : World :=
  ⟨(abcEmptied.2.GrowthPrepend 1 abcEmptied.1 1).1,
    [abc.2, (abcEmptied.2.GrowthPrepend 1 abcEmptied.1 1).2]⟩

/-- The heap after `n` duplicates of `abc` have been constructed one after
the other. -/
def copies : Nat → Heap
  | 0 => abc.1
  | n + 1 => (ListCore.copy (copies n) abc.2).1

/-- The buffer built by `List<char>(3, 100)`. -/
def roomy : Option (Heap × ListCore) := Strict.ListCore.ofSizeCapacity 1 Heap.empty 3 100

/-- The buffer `roomy` after `Empty()`. -/
def roomyCleared : Option (Heap × ListCore) :=
  match roomy with
  | some s => Strict.List.Empty s.1 s.2
  | none => none

/-- The buffer `roomyCleared` after `Prepend(&x, 1)`. -/
def roomyRegrown : Option (Heap × ListCore) :=
  match roomyCleared with
  | some s => Strict.List.Prepend 1 s.1 s.2 (some (run 1 [120])) 1
  | none => none

/-- The null buffer after `Append('a')`. -/
def oneAppended : Option (Heap × ListCore) :=
  Strict.List.AppendValue 1 Heap.empty ListCore.null (run 1 [97])

/-- The buffer `oneAppended` after `Append('b')`. -/
def twoAppended : Option (Heap × ListCore) :=
  match oneAppended with
  | some s => Strict.List.AppendValue 1 s.1 s.2 (run 1 [98])
  | none => none

/-- The world after one more core operation, or the world itself when the
operation has no defined result. -/
def after (wld : World) (op : CoreOp) : World :=
  match Strict.World.step 1 wld op with
  | some next => next
  | none => wld

/-- The world holding the buffer `[a, b, c]`. -/
def world1 : World := after ⟨Heap.empty, []⟩ (.ofData (some (run 1 [97, 98, 99])) 3)

/-- The buffer has grown by 30 slots at the front, into a new block. -/
def world2 : World := after world1 (.GrowthPrepend 0 30)

/-- The buffer has grown by 30 slots at the back, through `Reallocate`. -/
def world3 : World := after world2 (.GrowthAppend 0 30)

/-- The first 40 elements have been deleted. -/
def world4 : World := after world3 (.Delete 0 0 40)

/-- The capacity has been raised to 100. -/
def world5 : World := after world4 (.EnsureCapacity 0 100)

/-- Two slots have been opened at index 1, in place. -/
def world6 : World := after world5 (.GrowthInsert 0 1 2)

/-- `Detach(true)` has been called on the buffer, which no one shares. -/
def world7 : World := after world6 (.Detach 0 true)

/-- A null buffer has been constructed. -/
def world8 : World := after world7 .null

/-- A buffer has been constructed by `ListCore(5)`. -/
def world9 : World := after world8 (.ofSize 5)

/-- A buffer has been constructed by `ListCore(2, 10)`. -/
def world10 : World := after world9 (.ofSizeCapacity 2 10)

/-- The buffer built by `ListCore(5)` has been cleared. -/
def world11 : World := after world10 (.Empty 2)

/-- The first buffer has been duplicated. -/
def world12 : World := after world11 (.copy 0)

/-! ## Capacity planning -/

theorem lastPlace_spec (fuel : Nat) : ∀ v, v ≤ fuel →
    v / 2 ^ lastPlace fuel v < 2 ^ 53 ∧
      (2 ^ 53 ≤ v → 2 ^ 52 ≤ v / 2 ^ lastPlace fuel v ∧ 1 ≤ lastPlace fuel v) ∧
      (v < 2 ^ 53 → lastPlace fuel v = 0) := by
  induction fuel with
  | zero =>
    intro v hv
    have : v = 0 := by omega
    subst this
    simp [lastPlace]
  | succ fuel ih =>
    intro v hv
    unfold lastPlace
    split_ifs with hlt
    · simp only [pow_zero, Nat.div_one]
      exact ⟨hlt, fun h => absurd hlt (by omega), fun _ => trivial⟩
    · have h2 : v / 2 ≤ fuel := by
        have : (2:Nat) ^ 53 = 9007199254740992 := by norm_num
        omega
      obtain ⟨h3, h4, h5⟩ := ih (v / 2) h2
      have hdiv : v / 2 ^ (lastPlace fuel (v / 2) + 1) = v / 2 / 2 ^ lastPlace fuel (v / 2) := by
        rw [pow_succ, Nat.mul_comm, Nat.div_div_eq_div_mul]
      rw [hdiv]
      refine ⟨h3, fun _ => ⟨?_, by omega⟩, fun h => absurd h hlt⟩
      by_cases hbig : 2 ^ 53 ≤ v / 2
      · exact (h4 hbig).1
      · rw [h5 (by omega)]
        simp only [pow_zero, Nat.div_one]
        have : (2:Nat) ^ 53 = 9007199254740992 := by norm_num
        have : (2:Nat) ^ 52 = 4503599627370496 := by norm_num
        omega

theorem toDouble_of_lt (v : Nat) (hv : v < 2 ^ 53) : toDouble v = v := by
  have h := (lastPlace_spec v v (Nat.le_refl v)).2.2 hv
  simp [toDouble, h, roundHalfEven, Nat.mod_one]

theorem roundHalfEven_near (v s : Nat) :
    2 * v ≤ 2 * (roundHalfEven v s * 2 ^ s) + 2 ^ s ∧
      2 * (roundHalfEven v s * 2 ^ s) ≤ 2 * v + 2 ^ s ∧
      v / 2 ^ s ≤ roundHalfEven v s ∧ roundHalfEven v s ≤ v / 2 ^ s + 1 := by
  unfold roundHalfEven
  have hP : 0 < 2 ^ s := Nat.pos_pow_of_pos s (by norm_num)
  generalize 2 ^ s = P at hP ⊢
  have hdm := Nat.div_add_mod v P
  have hr := Nat.mod_lt v hP
  generalize v / P = q at hdm ⊢
  generalize v % P = r at hdm hr ⊢
  subst hdm
  split_ifs <;> refine ⟨?_, ?_, ?_, ?_⟩ <;> nlinarith

/-- Rounding moves `v` by at most half a unit in the last place, and that unit
is at most `v / 2 ^ 52`. -/
theorem toDouble_near (v : Nat) :
    2 * v ≤ 2 * toDouble v + v / 2 ^ 52 ∧ 2 * toDouble v ≤ 2 * v + v / 2 ^ 52 := by
  by_cases hv : v < 2 ^ 53
  · rw [toDouble_of_lt v hv]
    omega
  · obtain ⟨-, h2, -⟩ := lastPlace_spec v v (Nat.le_refl v)
    obtain ⟨hq, -⟩ := h2 (by omega)
    have hn := roundHalfEven_near v (lastPlace v v)
    unfold toDouble
    have hP : 0 < 2 ^ lastPlace v v := Nat.pos_pow_of_pos _ (by norm_num)
    have hPle : 2 ^ lastPlace v v ≤ v / 2 ^ 52 := by
      rw [Nat.le_div_iff_mul_le (by norm_num)]
      calc 2 ^ lastPlace v v * 2 ^ 52 ≤ 2 ^ lastPlace v v * (v / 2 ^ lastPlace v v) :=
            Nat.mul_le_mul_left _ hq
        _ ≤ v := Nat.mul_div_le v _
    omega

theorem le_timesOneAndHalf (n : Nat) : n ≤ truncate (timesOneAndHalf n) := by
  unfold truncate timesOneAndHalf
  have h1 := toDouble_near n
  have h2 := toDouble_near (3 * toDouble n)
  have e52 : (2:Nat) ^ 52 = 4503599627370496 := by norm_num
  rw [e52] at h1 h2
  omega

theorem timesOneAndHalf_exact (n : Nat) (hn : 3 * n < 2 ^ 53) :
    truncate (timesOneAndHalf n) = n * 3 / 2 := by
  unfold truncate timesOneAndHalf
  rw [toDouble_of_lt n (by omega), toDouble_of_lt _ hn, Nat.mul_comm]

theorem lastPlace_mono (u v : Nat) (huv : u ≤ v) : lastPlace u u ≤ lastPlace v v := by
  by_contra hcon
  have hlt : lastPlace v v + 1 ≤ lastPlace u u := by omega
  obtain ⟨-, hu2, hu3⟩ := lastPlace_spec u u (Nat.le_refl u)
  obtain ⟨hv1, -, -⟩ := lastPlace_spec v v (Nat.le_refl v)
  have hubig : 2 ^ 53 ≤ u := by
    by_contra hsmall
    have := hu3 (by omega)
    omega
  obtain ⟨hq, -⟩ := hu2 hubig
  have h1 : 2 ^ 52 * 2 ^ lastPlace u u ≤ u :=
    (Nat.le_div_iff_mul_le (Nat.pos_pow_of_pos _ (by norm_num))).1 hq
  have h2 : v < 2 ^ 53 * 2 ^ lastPlace v v :=
    (Nat.div_lt_iff_lt_mul (Nat.pos_pow_of_pos _ (by norm_num))).1 hv1
  have h3 : 2 ^ (lastPlace v v + 1) ≤ 2 ^ lastPlace u u :=
    Nat.pow_le_pow_right (by norm_num) hlt
  rw [pow_succ] at h3
  have e52 : (2:Nat) ^ 52 = 4503599627370496 := by norm_num
  have e53 : (2:Nat) ^ 53 = 9007199254740992 := by norm_num
  rw [e52] at h1
  rw [e53] at h2
  omega

theorem roundHalfEven_mono (u v s : Nat) (huv : u ≤ v) :
    roundHalfEven u s ≤ roundHalfEven v s := by
  have hP : 0 < 2 ^ s := Nat.pos_pow_of_pos s (by norm_num)
  have hq : u / 2 ^ s ≤ v / 2 ^ s := Nat.div_le_div_right huv
  rcases Nat.lt_or_ge (u / 2 ^ s) (v / 2 ^ s) with hlt | hge
  · have h1 := (roundHalfEven_near u s).2.2.2
    have h2 := (roundHalfEven_near v s).2.2.1
    omega
  · have heq : u / 2 ^ s = v / 2 ^ s := Nat.le_antisymm hq hge
    have hdu := Nat.div_add_mod u (2 ^ s)
    have hdv := Nat.div_add_mod v (2 ^ s)
    rw [heq] at hdu
    have hr : u % 2 ^ s ≤ v % 2 ^ s := by omega
    unfold roundHalfEven
    rw [heq]
    split_ifs <;> omega

theorem toDouble_mono (u v : Nat) (huv : u ≤ v) : toDouble u ≤ toDouble v := by
  unfold toDouble
  rcases Nat.eq_or_lt_of_le (lastPlace_mono u v huv) with heq | hlt
  · rw [heq]
    exact Nat.mul_le_mul_right _ (roundHalfEven_mono u v _ huv)
  · obtain ⟨hu1, -, -⟩ := lastPlace_spec u u (Nat.le_refl u)
    obtain ⟨-, hv2, hv3⟩ := lastPlace_spec v v (Nat.le_refl v)
    have hvbig : 2 ^ 53 ≤ v := by
      by_contra hsmall
      have := hv3 (by omega)
      omega
    obtain ⟨hq, -⟩ := hv2 hvbig
    have h1 := (roundHalfEven_near u (lastPlace u u)).2.2.2
    have h2 := (roundHalfEven_near v (lastPlace v v)).2.2.1
    have h3 : 2 ^ (lastPlace u u + 1) ≤ 2 ^ lastPlace v v :=
      Nat.pow_le_pow_right (by norm_num) hlt
    rw [pow_succ] at h3
    calc roundHalfEven u (lastPlace u u) * 2 ^ lastPlace u u
        ≤ 2 ^ 53 * 2 ^ lastPlace u u := Nat.mul_le_mul_right _ (by omega)
      _ = 2 ^ 52 * (2 ^ lastPlace u u * 2) := by ring
      _ ≤ 2 ^ 52 * 2 ^ lastPlace v v := Nat.mul_le_mul_left _ h3
      _ ≤ roundHalfEven v (lastPlace v v) * 2 ^ lastPlace v v :=
          Nat.mul_le_mul_right _ (by omega)

theorem timesOneAndHalf_mono (a b : Nat) (hab : a ≤ b) :
    truncate (timesOneAndHalf a) ≤ truncate (timesOneAndHalf b) := by
  unfold truncate timesOneAndHalf
  exact Nat.div_le_div_right
    (toDouble_mono _ _ (Nat.mul_le_mul_left 3 (toDouble_mono a b hab)))

theorem CalculateCapacity_ge (w n : Nat) : n ≤ CalculateCapacity w n := by
  have h := le_timesOneAndHalf n
  unfold CalculateCapacity
  split_ifs with h0 h1
  · omega
  · simp only [Bool.and_eq_true, decide_eq_true_eq] at h1
    omega
  · exact h

theorem CalculateCapacity_mono (w : Nat) {n m : Nat} (hnm : n ≤ m) :
    CalculateCapacity w n ≤ CalculateCapacity w m := by
  have h1 := timesOneAndHalf_mono n m hnm
  have h2 := le_timesOneAndHalf m
  unfold CalculateCapacity
  split_ifs with h0 h1 h2 h3 h4 h5 <;>
    simp only [Bool.and_eq_true, decide_eq_true_eq, not_and, not_lt] at * <;>
    first
      | omega
      | (simp only [EnableMinimumCapacity, bne_iff_ne, ne_eq] at *; omega)

theorem floor_three_halves (n : Nat) : ⌊(3 / 2 : ℚ) * n⌋₊ = n * 3 / 2 := by
  have h : (3 / 2 : ℚ) * n = ((n * 3 : ℕ) : ℚ) / ((2 : ℕ) : ℚ) := by
    push_cast
    ring
  rw [h, Nat.floor_div_eq_div]

/-- The result of `Strict.CalculateCapacity` is the value of
`CalculateCapacity` when that is a `size_t` value, and undefined otherwise. -/
theorem Strict_CalculateCapacity_eq (w n : Nat) :
    Strict.CalculateCapacity w n =
      if CalculateCapacity w n < 2 ^ 64 then some (CalculateCapacity w n) else none := by
  unfold Strict.CalculateCapacity CalculateCapacity Strict.doubleToSize
  have hm : MinimumCapacity w < 2 ^ 64 := by
    unfold MinimumCapacity
    have := Nat.div_le_self 32 w
    have e : (2:Nat) ^ 64 = 18446744073709551616 := by norm_num
    omega
  split_ifs <;> first | rfl | omega

theorem Strict_CalculateCapacity_some (w n v : Nat)
    (h : Strict.CalculateCapacity w n = some v) :
    v = CalculateCapacity w n ∧ n ≤ v ∧ v < 2 ^ 64 := by
  rw [Strict_CalculateCapacity_eq] at h
  split_ifs at h with hlt
  cases h
  exact ⟨rfl, CalculateCapacity_ge w n, hlt⟩

theorem timesOneAndHalf_floor (n : Nat) (hn : n < 3002399751580333) :
    truncate (timesOneAndHalf n) = n * 3 / 2 := by
  by_cases h : 3 * n < 2 ^ 53
  · exact timesOneAndHalf_exact n h
  · have e : (2:Nat) ^ 53 = 9007199254740992 := by norm_num
    have hcases : n = 3002399751580331 ∨ n = 3002399751580332 := by omega
    rcases hcases with rfl | rfl <;> decide

theorem timesOneAndHalf_range (n : Nat) :
    truncate (timesOneAndHalf n) < 2 ^ 64 ↔ n ≤ 12297829382473032704 := by
  constructor
  · intro hlt
    by_contra hcon
    have h1 := timesOneAndHalf_mono 12297829382473032705 n (by omega)
    have h2 : truncate (timesOneAndHalf 12297829382473032705) = 2 ^ 64 := by decide
    omega
  · intro hle
    have h1 := timesOneAndHalf_mono n 12297829382473032704 hle
    have h2 : truncate (timesOneAndHalf 12297829382473032704) = 18446744073709547520 := by
      decide
    have e : (2:Nat) ^ 64 = 18446744073709551616 := by norm_num
    omega

/-- C9 (as stated) fails: for the request 3002399751580333 the result is
4503599627370500, one more than the floor of `1.5 * n`; for the request
`2 ^ 64 - 1` the product is outside the range of `size_t` and the conversion
has no defined result. -/
theorem CalculateCapacity_not_floor :
    Strict.CalculateCapacity 1 3002399751580333 = some 4503599627370500 ∧
      ⌊(3 / 2 : ℚ) * (3002399751580333 : ℕ)⌋₊ = 4503599627370499 ∧
      Strict.CalculateCapacity 1 (2 ^ 64 - 1) = none := by
  refine ⟨by decide, ?_, by decide⟩
  rw [floor_three_halves]

/-- C9 (as amended): `CalculateCapacity` for element size `s` returns 0 for a
request of 0, the minimum `max 1 (32 / s)` for a request strictly between 0
and that minimum, and otherwise the `double` product `n * 1.5` truncated,
which is the floor of `1.5 * n` for every request below 3002399751580333 and
has no defined value for a request above 12297829382473032704, where the
product reaches `2 ^ 64`; a defined result is a `size_t` value, it is never
less than the request, and the results are monotone in the request. -/
theorem CalculateCapacity_spec (s n : Nat) :
    (n = 0 → Strict.CalculateCapacity s n = some 0) ∧
      (0 < n → n < max 1 (32 / s) → Strict.CalculateCapacity s n = some (max 1 (32 / s))) ∧
      (max 1 (32 / s) ≤ n → n ≤ 12297829382473032704 →
        Strict.CalculateCapacity s n = some (truncate (timesOneAndHalf n))) ∧
      (max 1 (32 / s) ≤ n → n < 3002399751580333 →
        Strict.CalculateCapacity s n = some ⌊(3 / 2 : ℚ) * n⌋₊) ∧
      (Strict.CalculateCapacity s n = none ↔ 12297829382473032704 < n) ∧
      (∀ v, Strict.CalculateCapacity s n = some v → n ≤ v ∧ v < 2 ^ 64) ∧
      (∀ m v v', n ≤ m → Strict.CalculateCapacity s n = some v →
        Strict.CalculateCapacity s m = some v' → v ≤ v') := by
  have hdiv : 32 / s ≤ 32 := Nat.div_le_self 32 s
  have e64 : (2:Nat) ^ 64 = 18446744073709551616 := by norm_num
  have hgen : max 1 (32 / s) ≤ n →
      Strict.CalculateCapacity s n = Strict.doubleToSize (timesOneAndHalf n) := by
    intro hle
    have h1 : 1 ≤ n := le_trans (le_max_left _ _) hle
    have h2 : 32 / s ≤ n := le_trans (le_max_right _ _) hle
    unfold Strict.CalculateCapacity MinimumCapacity
    rw [if_neg (by omega)]
    have h3 : ¬ n < 32 / s := by omega
    simp [h3]
  refine ⟨?_, ?_, ?_, ?_, ?_, ?_, ?_⟩
  · intro h0
    simp [Strict.CalculateCapacity, h0]
  · intro hpos hlt
    by_cases hm : 32 / s = 0
    · rw [hm] at hlt
      simp at hlt
      omega
    · have hmax : max 1 (32 / s) = 32 / s := max_eq_right (Nat.pos_of_ne_zero hm)
      rw [hmax] at hlt ⊢
      unfold Strict.CalculateCapacity EnableMinimumCapacity MinimumCapacity
      rw [if_neg (by omega)]
      simp [hm, hlt]
  · intro hle hrange
    rw [hgen hle]
    unfold Strict.doubleToSize
    rw [if_pos ((timesOneAndHalf_range n).2 hrange)]
  · intro hle hsmall
    rw [hgen hle, floor_three_halves, ← timesOneAndHalf_floor n hsmall]
    unfold Strict.doubleToSize
    rw [if_pos ((timesOneAndHalf_range n).2 (by omega))]
  · constructor
    · intro hnone
      by_contra hcon
      have hle : n ≤ 12297829382473032704 := by omega
      rw [Strict_CalculateCapacity_eq] at hnone
      split_ifs at hnone with hlt
      have h1 := CalculateCapacity_mono s hle
      have h2 : CalculateCapacity s 12297829382473032704 = 18446744073709547520 := by
        unfold CalculateCapacity MinimumCapacity
        rw [if_neg (by omega)]
        have h3 : ¬ 12297829382473032704 < 32 / s := by omega
        simp only [h3, decide_False, Bool.and_false, Bool.false_eq_true, if_false]
        decide
      omega
    · intro hbig
      rw [hgen (by
        have : max 1 (32 / s) ≤ 32 := max_le (by omega) hdiv
        omega)]
      unfold Strict.doubleToSize
      rw [if_neg]
      intro hlt
      have := (timesOneAndHalf_range n).1 hlt
      omega
  · intro v hv
    exact (Strict_CalculateCapacity_some s n v hv).2
  · intro m v v' hnm hv hv'
    rw [(Strict_CalculateCapacity_some s n v hv).1, (Strict_CalculateCapacity_some s m v' hv').1]
    exact CalculateCapacity_mono s hnm

theorem CalculateCapacity_spec_witness :
    max 1 (32 / 4) ≤ 40 ∧ 40 < 3002399751580333 ∧
      Strict.CalculateCapacity 4 40 = some ⌊(3 / 2 : ℚ) * (40 : ℕ)⌋₊ ∧
      (0 < 5 ∧ 5 < max 1 (32 / 4) ∧ Strict.CalculateCapacity 4 5 = some (max 1 (32 / 4))) :=
  ⟨by decide, by decide, (CalculateCapacity_spec 4 40).2.2.2.1 (by decide) (by decide),
    by decide, by decide, (CalculateCapacity_spec 4 5).2.1 (by decide) (by decide)⟩

/-! ## `size <= capacity` along defined runs -/

theorem Strict_doubleToSize_some (x v : Nat) (h : Strict.doubleToSize x = some v) :
    v = truncate x ∧ v < 2 ^ 64 := by
  unfold Strict.doubleToSize at h
  split_ifs at h with hlt
  cases h
  exact ⟨rfl, hlt⟩

theorem Strict_InitializeCore_some (w : Nat) (h : Heap) (n cap : Nat) (s : Heap × ListCore)
    (hs : Strict.InitializeCore w h n cap = some s) : s.2.size = n ∧ s.2.capacity = cap := by
  unfold Strict.InitializeCore at hs
  split at hs
  · cases hs
    exact ⟨rfl, rfl⟩
  · cases hs

theorem Strict_startFresh_some (w : Nat) (h : Heap) (g : Nat) (s : Heap × ListCore)
    (hs : Strict.startFresh w h g = some s) :
    s.2.size = g ∧ g ≤ s.2.capacity ∧ s.2.capacity < 2 ^ 64 := by
  unfold Strict.startFresh at hs
  split at hs
  · rename_i capacity hcap
    obtain ⟨h1, h2⟩ := Strict_InitializeCore_some w h g capacity s hs
    obtain ⟨-, h3, h4⟩ := Strict_CalculateCapacity_some w g capacity hcap
    rw [h1, h2]
    exact ⟨rfl, h3, h4⟩
  · cases hs

theorem Strict_Detach_fits (w : Nat) (h : Heap) (c : ListCore) (b : Bool) (s : Heap × ListCore)
    (hc : c.size ≤ c.capacity ∧ c.capacity < 2 ^ 64)
    (hs : Strict.ListCore.Detach w h c b = some s) :
    s.2.size ≤ s.2.capacity ∧ s.2.capacity < 2 ^ 64 := by
  have hd := fun v => Strict_doubleToSize_some (timesOneAndHalf c.size) v
  have hle := le_timesOneAndHalf c.size
  unfold Strict.ListCore.Detach at hs
  repeat' split at hs
  all_goals first
    | (cases hs; done)
    | (cases hs; exact hc)
    | (cases hs; have := hd _ (by assumption); simp only; omega)

theorem Strict_EnsureCapacity_fits (w : Nat) (h : Heap) (c : ListCore) (n : Nat)
    (s : Heap × ListCore) (hn : n < 2 ^ 64)
    (hc : c.size ≤ c.capacity ∧ c.capacity < 2 ^ 64)
    (hs : Strict.ListCore.EnsureCapacity w h c n = some s) :
    s.2.size ≤ s.2.capacity ∧ s.2.capacity < 2 ^ 64 := by
  unfold Strict.ListCore.EnsureCapacity at hs
  repeat' split at hs
  all_goals first
    | (cases hs; done)
    | (cases hs; exact hc)
    | (cases hs; simp only; omega)

theorem Strict_GrowthAppend_fits (w : Nat) (h : Heap) (c : ListCore) (g : Nat)
    (s : Heap × ListCore × Ptr) (hc : c.size ≤ c.capacity ∧ c.capacity < 2 ^ 64)
    (hs : Strict.ListCore.GrowthAppend w h c g = some s) :
    s.2.1.size ≤ s.2.1.capacity ∧ s.2.1.capacity < 2 ^ 64 := by
  have hcc := Strict_CalculateCapacity_some w
  have hsf := Strict_startFresh_some w h g
  unfold Strict.ListCore.GrowthAppend at hs
  repeat' split at hs
  all_goals first
    | (cases hs; done)
    | (cases hs; exact hc)
    | (cases hs; have := hcc _ _ (by assumption); simp only; omega)
    | (cases hs; have := hsf _ (by assumption); dsimp only at this ⊢; omega)

theorem Strict_GrowthPrepend_fits (w : Nat) (h : Heap) (c : ListCore) (g : Nat)
    (s : Heap × ListCore) (hc : c.size ≤ c.capacity ∧ c.capacity < 2 ^ 64)
    (hs : Strict.ListCore.GrowthPrepend w h c g = some s) :
    s.2.size ≤ s.2.capacity ∧ s.2.capacity < 2 ^ 64 := by
  have hcc := Strict_CalculateCapacity_some w
  have hsf := Strict_startFresh_some w h g s
  unfold Strict.ListCore.GrowthPrepend at hs
  repeat' split at hs
  all_goals first
    | (cases hs; done)
    | (cases hs; exact hc)
    | (have hfresh := hsf hs; omega)
    | (cases hs; have := hcc _ _ (by assumption); simp only; omega)
    | (cases hs; simp only; omega)

theorem Strict_GrowthInsert_fits (w : Nat) (h : Heap) (c : ListCore) (k g : Nat)
    (s : Heap × ListCore) (hc : c.size ≤ c.capacity ∧ c.capacity < 2 ^ 64)
    (hs : Strict.ListCore.GrowthInsert w h c k g = some s) :
    s.2.size ≤ s.2.capacity ∧ s.2.capacity < 2 ^ 64 := by
  have hcc := Strict_CalculateCapacity_some w
  have hsf := Strict_startFresh_some w h g s
  unfold Strict.ListCore.GrowthInsert at hs
  repeat' split at hs
  all_goals first
    | (cases hs; done)
    | (cases hs; exact hc)
    | (have hfresh := hsf hs; omega)
    | (cases hs; have := hcc _ _ (by assumption); simp only; omega)
    | (cases hs; simp only; omega)

theorem Strict_minus_le (a b : Nat) (ha : a < 2 ^ 64) (hb : b ≤ a) : Strict.minus a b = a - b := by
  unfold Strict.minus Strict.wrap
  have e : (2:Nat) ^ 64 = 18446744073709551616 := by norm_num
  rw [e] at ha ⊢
  omega

theorem Strict_Delete_fits (w : Nat) (h : Heap) (c : ListCore) (k n : Nat)
    (s : Heap × ListCore) (hv : k + n ≤ c.size)
    (hc : c.size ≤ c.capacity ∧ c.capacity < 2 ^ 64)
    (hs : Strict.ListCore.Delete w h c k n = some s) :
    s.2.size ≤ s.2.capacity ∧ s.2.capacity < 2 ^ 64 := by
  have hcc := Strict_CalculateCapacity_some w
  have hm := Strict_minus_le c.size n (by omega) (by omega)
  unfold Strict.ListCore.Delete at hs
  rw [hm] at hs
  repeat' split at hs
  all_goals first
    | (cases hs; done)
    | (cases hs; exact hc)
    | (cases hs; have := hcc _ _ (by assumption); simp only; omega)
    | (cases hs; simp only; omega)

theorem Strict_Empty_fits (h : Heap) (c : ListCore) (s : Heap × ListCore)
    (hc : c.size ≤ c.capacity ∧ c.capacity < 2 ^ 64)
    (hs : Strict.ListCore.Empty h c = some s) :
    s.2.size ≤ s.2.capacity ∧ s.2.capacity < 2 ^ 64 := by
  unfold Strict.ListCore.Empty at hs
  repeat' split at hs
  all_goals first
    | (cases hs; done)
    | (cases hs; exact hc)
    | (cases hs; simp only [ListCore.null]; omega)

theorem copy_fits (h : Heap) (c : ListCore) (hc : c.size ≤ c.capacity ∧ c.capacity < 2 ^ 64) :
    (ListCore.copy h c).2.size ≤ (ListCore.copy h c).2.capacity ∧
      (ListCore.copy h c).2.capacity < 2 ^ 64 := by
  simp only [ListCore.copy, Heap.newCounter, ListCore.null]
  repeat' split
  all_goals simp only
  all_goals omega

theorem Strict_ofSize_fits (w : Nat) (h : Heap) (n : Nat) (s : Heap × ListCore)
    (hs : Strict.ListCore.ofSize w h n = some s) :
    s.2.size ≤ s.2.capacity ∧ s.2.capacity < 2 ^ 64 := by
  have hsf := Strict_startFresh_some w h n s
  unfold Strict.startFresh at hsf
  unfold Strict.ListCore.ofSize at hs
  have := hsf hs
  omega

theorem Strict_ofData_fits (w : Nat) (h : Heap) (d : Option (List Cell)) (n : Nat)
    (s : Heap × ListCore) (hs : Strict.ListCore.ofData w h d n = some s) :
    s.2.size ≤ s.2.capacity ∧ s.2.capacity < 2 ^ 64 := by
  have hof := Strict_ofSize_fits w h n
  unfold Strict.ListCore.ofData at hs
  repeat' split at hs
  all_goals first
    | (cases hs; done)
    | (cases hs; have := hof _ (by assumption); dsimp only at this ⊢; omega)
    | (cases hs; simp only [ListCore.null]; omega)

theorem Strict_update_fits (wld next : World) (i : Nat)
    (f : Heap → ListCore → Option (Heap × ListCore))
    (hf : ∀ c s, wld.cores[i]? = some c → c.size ≤ c.capacity ∧ c.capacity < 2 ^ 64 →
      f wld.heap c = some s → s.2.size ≤ s.2.capacity ∧ s.2.capacity < 2 ^ 64)
    (hw : ∀ c ∈ wld.cores, c.size ≤ c.capacity ∧ c.capacity < 2 ^ 64)
    (hs : Strict.World.update wld i f = some next) :
    ∀ c ∈ next.cores, c.size ≤ c.capacity ∧ c.capacity < 2 ^ 64 := by
  unfold Strict.World.update at hs
  split at hs
  · rename_i c0 hget
    split at hs
    · rename_i s0 hf0
      cases hs
      intro c hc
      rcases List.mem_or_eq_of_mem_set hc with hmem | heq
      · exact hw c hmem
      · rw [heq]
        exact hf c0 s0 hget (hw c0 (List.getElem?_mem hget)) hf0
    · cases hs
  · cases hs

theorem push_fits (wld : World) (r : Heap × ListCore)
    (hr : r.2.size ≤ r.2.capacity ∧ r.2.capacity < 2 ^ 64)
    (hw : ∀ c ∈ wld.cores, c.size ≤ c.capacity ∧ c.capacity < 2 ^ 64) :
    ∀ c ∈ (wld.push r).cores, c.size ≤ c.capacity ∧ c.capacity < 2 ^ 64 := by
  intro c hc
  simp only [World.push, List.mem_append, List.mem_singleton] at hc
  rcases hc with hmem | heq
  · exact hw c hmem
  · rw [heq]
    exact hr

theorem Strict_construct_fits (wld next : World) (r : Option (Heap × ListCore))
    (hr : ∀ s, r = some s → s.2.size ≤ s.2.capacity ∧ s.2.capacity < 2 ^ 64)
    (hw : ∀ c ∈ wld.cores, c.size ≤ c.capacity ∧ c.capacity < 2 ^ 64)
    (hs : Strict.World.construct wld r = some next) :
    ∀ c ∈ next.cores, c.size ≤ c.capacity ∧ c.capacity < 2 ^ 64 := by
  unfold Strict.World.construct at hs
  split at hs
  · rename_i s0
    cases hs
    exact push_fits wld s0 (hr s0 rfl) hw
  · cases hs

theorem Strict_step_fits (w : Nat) (wld next : World) (op : CoreOp) (hv : op.valid wld)
    (hin : Strict.inRange op)
    (hw : ∀ c ∈ wld.cores, c.size ≤ c.capacity ∧ c.capacity < 2 ^ 64)
    (hs : Strict.World.step w wld op = some next) :
    ∀ c ∈ next.cores, c.size ≤ c.capacity ∧ c.capacity < 2 ^ 64 := by
  cases op with
  | null =>
    simp only [Strict.World.step, Option.some.injEq] at hs
    rw [← hs]
    exact push_fits wld _ ⟨Nat.le_refl 0, (by decide : (0 : Nat) < 2 ^ 64)⟩ hw
  | ofSize n =>
    exact Strict_construct_fits wld next _ (fun s h0 => Strict_ofSize_fits w _ n s h0) hw hs
  | ofSizeCapacity n cap =>
    refine Strict_construct_fits wld next _ (fun s h0 => ?_) hw hs
    obtain ⟨h1, h2⟩ := Strict_InitializeCore_some w _ n cap s h0
    rw [h1, h2]
    exact ⟨hv, hin.2⟩
  | ofData d n =>
    exact Strict_construct_fits wld next _ (fun s h0 => Strict_ofData_fits w _ d n s h0) hw hs
  | copy i =>
    simp only [Strict.World.step] at hs
    split at hs
    · rename_i c0 hget
      cases hs
      exact push_fits wld _ (copy_fits _ c0 (hw c0 (List.getElem?_mem hget))) hw
    · cases hs
  | Detach i b =>
    simp only [Strict.World.step] at hs
    refine Strict_update_fits wld next i _ ?_ hw hs
    intro c s _ hc h0
    exact Strict_Detach_fits w _ c b s hc h0
  | EnsureCapacity i n =>
    simp only [Strict.World.step] at hs
    refine Strict_update_fits wld next i _ ?_ hw hs
    intro c s _ hc h0
    exact Strict_EnsureCapacity_fits w _ c n s hin hc h0
  | GrowthAppend i g =>
    simp only [Strict.World.step] at hs
    refine Strict_update_fits wld next i _ ?_ hw hs
    intro c s _ hc h0
    split at h0
    · rename_i s0 hs0
      cases h0
      exact Strict_GrowthAppend_fits w _ c g s0 hc hs0
    · cases h0
  | GrowthPrepend i g =>
    simp only [Strict.World.step] at hs
    refine Strict_update_fits wld next i _ ?_ hw hs
    intro c s _ hc h0
    exact Strict_GrowthPrepend_fits w _ c g s hc h0
  | GrowthInsert i k g =>
    simp only [Strict.World.step] at hs
    refine Strict_update_fits wld next i _ ?_ hw hs
    intro c s _ hc h0
    exact Strict_GrowthInsert_fits w _ c k g s hc h0
  | Delete i k n =>
    simp only [Strict.World.step] at hs
    refine Strict_update_fits wld next i _ ?_ hw hs
    intro c s hget hc h0
    exact Strict_Delete_fits w _ c k n s (hv c hget) hc h0
  | Empty i =>
    simp only [Strict.World.step] at hs
    refine Strict_update_fits wld next i _ ?_ hw hs
    intro c s _ hc h0
    exact Strict_Empty_fits _ c s hc h0

/-- C10 (as stated) fails: on the null buffer, `GrowthAppend(2 ^ 64 - 1)` is a
call with valid arguments, and the capacity it plans, the `double` product
`(2 ^ 64 - 1) * 1.5`, is outside the range of `size_t`, so the call has no
defined result. -/
theorem GrowthAppend_out_of_range :
    Strict.Reachable 1 ⟨Heap.empty, [ListCore.null]⟩ ∧
      CoreOp.valid ⟨Heap.empty, [ListCore.null]⟩ (.GrowthAppend 0 (2 ^ 64 - 1)) ∧
      Strict.inRange (.GrowthAppend 0 (2 ^ 64 - 1)) ∧
      truncate (timesOneAndHalf (2 ^ 64 - 1)) = 3 * 2 ^ 63 ∧
      Strict.World.step 1 ⟨Heap.empty, [ListCore.null]⟩ (.GrowthAppend 0 (2 ^ 64 - 1)) = none :=
  ⟨Strict.Reachable.step .null Strict.Reachable.init trivial trivial rfl, trivial,
    (by decide : 2 ^ 64 - 1 < 2 ^ 64), by decide, by decide⟩

/-- C10 (as amended): in every world reachable from construction through the
core operations, each called with valid arguments and each with defined
behaviour, every buffer has `size <= capacity`, and its capacity is a `size_t`
value. -/
theorem Reachable_size_le_capacity (w : Nat) (wld : World) (hr : Strict.Reachable w wld) :
    ∀ c ∈ wld.cores, c.size ≤ c.capacity ∧ c.capacity < 2 ^ 64 := by
  induction hr with
  | init => intro c hc; simp at hc
  | step op _ hv hin hs ih => exact Strict_step_fits w _ _ op hv hin ih hs

set_option maxRecDepth 8000

theorem world1_reachable : Strict.Reachable 1 world1 :=
  @Strict.Reachable.step 1 ⟨Heap.empty, []⟩ world1 (.ofData (some (run 1 [97, 98, 99])) 3)
    Strict.Reachable.init trivial (by decide : 3 < 2 ^ 64) (by decide)

theorem world2_reachable : Strict.Reachable 1 world2 :=
  @Strict.Reachable.step 1 world1 world2 (.GrowthPrepend 0 30) world1_reachable trivial
    (by decide : 30 < 2 ^ 64) (by decide)

theorem world3_reachable : Strict.Reachable 1 world3 :=
  @Strict.Reachable.step 1 world2 world3 (.GrowthAppend 0 30) world2_reachable trivial
    (by decide : 30 < 2 ^ 64) (by decide)

theorem world4_reachable : Strict.Reachable 1 world4 :=
  @Strict.Reachable.step 1 world3 world4 (.Delete 0 0 40) world3_reachable
    (by intro c hc; cases hc; decide) (by decide : 0 < 2 ^ 64 ∧ 40 < 2 ^ 64) (by decide)

theorem world5_reachable : Strict.Reachable 1 world5 :=
  @Strict.Reachable.step 1 world4 world5 (.EnsureCapacity 0 100) world4_reachable trivial
    (by decide : 100 < 2 ^ 64) (by decide)

theorem world6_reachable : Strict.Reachable 1 world6 :=
  @Strict.Reachable.step 1 world5 world6 (.GrowthInsert 0 1 2) world5_reachable trivial
    (by decide : 1 < 2 ^ 64 ∧ 2 < 2 ^ 64) (by decide)

theorem world7_reachable : Strict.Reachable 1 world7 :=
  @Strict.Reachable.step 1 world6 world7 (.Detach 0 true) world6_reachable trivial trivial
    (by decide)

theorem world8_reachable : Strict.Reachable 1 world8 :=
  @Strict.Reachable.step 1 world7 world8 .null world7_reachable trivial trivial (by decide)

theorem world9_reachable : Strict.Reachable 1 world9 :=
  @Strict.Reachable.step 1 world8 world9 (.ofSize 5) world8_reachable trivial
    (by decide : 5 < 2 ^ 64) (by decide)

theorem world10_reachable : Strict.Reachable 1 world10 :=
  @Strict.Reachable.step 1 world9 world10 (.ofSizeCapacity 2 10) world9_reachable
    (by decide : 2 ≤ 10) (by decide : 2 < 2 ^ 64 ∧ 10 < 2 ^ 64) (by decide)

theorem world11_reachable : Strict.Reachable 1 world11 :=
  @Strict.Reachable.step 1 world10 world11 (.Empty 2) world10_reachable trivial trivial
    (by decide)

theorem world12_reachable : Strict.Reachable 1 world12 :=
  @Strict.Reachable.step 1 world11 world12 (.copy 0) world11_reachable trivial trivial
    (by decide)

theorem Reachable_size_le_capacity_witness :
    Strict.Reachable 1 world12 ∧
      world12.cores = [⟨some 1, some 1, 25, 100⟩, ListCore.null, ⟨some 2, some 2, 0, 32⟩,
        ⟨some 3, some 3, 2, 10⟩, ⟨some 1, some 1, 25, 100⟩] ∧
      ∀ c ∈ world12.cores, c.size ≤ c.capacity ∧ c.capacity < 2 ^ 64 :=
  ⟨world12_reachable, by decide, Reachable_size_le_capacity 1 world12 world12_reachable⟩

/-! ## Raw memory lemmas -/

theorem modifyBlock_getElem? (h : Heap) (r r' : Nat) (f : Block → Block) :
    (h.modifyBlock r f).blocks[r']? = if r = r' then h.blocks[r']?.map f else h.blocks[r']? := by
  unfold Heap.modifyBlock
  split
  · rename_i b hb
    simp only [List.getElem?_set]
    split_ifs with h1 h2
    · subst h1; simp [hb]
    · subst h1
      simp only [not_lt] at h2
      have := List.getElem?_eq_none h2
      simp [this] at hb
    · rfl
  · rename_i hb
    split_ifs with h1
    · subst h1; simp [hb]
    · rfl

theorem modifyBlock_counters (h : Heap) (r : Nat) (f : Block → Block) :
    (h.modifyBlock r f).counters = h.counters := by
  unfold Heap.modifyBlock
  split <;> rfl

/-! ## Duplication -/

theorem setSlot_bytes (h : Heap) (r : Nat) (v : Option Nat) :
    (h.setSlot r v).blocks.map Block.bytes = h.blocks.map Block.bytes := by
  apply List.ext_getElem?
  intro i
  simp only [List.getElem?_map, Heap.setSlot, modifyBlock_getElem?]
  split_ifs with h1
  · cases h.blocks[i]? <;> simp
  · rfl

theorem slotOf_setSlot (h : Heap) (r : Nat) (v : Option Nat) (hr : r < h.blocks.length) :
    (h.setSlot r v).slotOf r = v := by
  simp only [Heap.slotOf, Heap.setSlot, modifyBlock_getElem?, if_true,
    List.getElem?_eq_getElem hr, Option.map_some']

theorem getValue_set (cs : List Int) (bl : List Block) (fr : List Nat) (k : Nat) (v : Int)
    (hk : k < cs.length) : Heap.GetValue ⟨bl, cs.set k v, fr⟩ k = v := by
  simp [Heap.GetValue, List.getD, hk]

/-- C6 (as amended): duplicating a null or a non-empty buffer yields a buffer
with the same `ref`, `data`, `size` and `capacity`, both `IsSharingWith` calls
return true, and no block's element bytes change; duplicating an allocated
buffer of size 0 yields the null buffer, which does not share with the
original, and leaves the heap untouched. -/
theorem copy_IsSharingWith (h : Heap) (A : ListCore) :
    (A = ListCore.null ∨ A.live = true →
        List.IsSharingWith A (List.copy h A).2 = true ∧
        List.IsSharingWith (List.copy h A).2 A = true ∧
        (List.copy h A).2 = A ∧
        (List.copy h A).1.blocks.map Block.bytes = h.blocks.map Block.bytes) ∧
      (A.ref.isSome = true → A.size = 0 →
        (List.copy h A).2 = ListCore.null ∧
        List.IsSharingWith A (List.copy h A).2 = false ∧
        List.IsSharingWith (List.copy h A).2 A = false ∧
        (List.copy h A).1 = h) := by
  constructor
  · rintro (hnull | hlive)
    · subst hnull
      simp [List.copy, ListCore.copy, ListCore.null, List.IsSharingWith, ListCore.IsSharingWith]
    · obtain ⟨ref, data, size, capacity⟩ := A
      simp only [ListCore.live, Bool.and_eq_true, bne_iff_ne, ne_eq] at hlive
      obtain ⟨⟨h1, h2⟩, h3⟩ := hlive
      cases ref with
      | none => simp at h1
      | some r =>
        simp only [List.copy, ListCore.copy, h2, h3, bne_iff_ne, ne_eq, not_false_eq_true,
          Bool.and_self, Bool.true_and, decide_True, if_true, List.IsSharingWith,
          ListCore.IsSharingWith, Heap.newCounter]
        cases h.slotOf r with
        | none => simp [setSlot_bytes]
        | some k => simp [Heap.IncrementRef]
  · intro hsome hsize
    obtain ⟨ref, data, size, capacity⟩ := A
    simp only at hsize
    subst hsize
    cases ref with
    | none => simp at hsome
    | some r =>
      simp [List.copy, ListCore.copy, ListCore.null, List.IsSharingWith, ListCore.IsSharingWith]

theorem slotOf_mk (h : Heap) (cs : List Int) (fr : List Nat) (r : Nat) :
    Heap.slotOf ⟨h.blocks, cs, fr⟩ r = h.slotOf r := rfl

/-! ## The example buffers are well formed -/

theorem abc_wellFormed : WellFormed 1 abc.1 abc.2 where
  data_eq := rfl
  size_le := by decide
  null_zero := by intro hn; cases hn
  block := by
    intro r hr
    cases hr
    exact ⟨by decide, by decide⟩

theorem abc_counterValid : CounterValid abc.1 abc.2 := by
  intro r k hr hk
  cases hr
  cases hk

/-! ## Evaluations at concrete inputs -/

/-- C1: after duplicating `[a, b, c]`, appending one element to the duplicate,
or to the original, takes the shared branch of `GrowthAppend`, which hands
back no pointer, so the write of the appended element has no defined
destination and `Append` has no defined result. -/
theorem Append_after_copy_undefined :
    List.Append 1 abcDup.1 abcDup.2 (some (run 1 [120])) 1 = none ∧
      List.Append 1 abcDup.1 abc.2 (some (run 1 [120])) 1 = none := by
  decide

/-- C2: deleting the range `(1, 2)` from the unshared four-byte buffer
`[a, b, c, d, e]` moves only two bytes: the result is not `[a, d, e]`; its
second element mixes the bytes of `d` and `b` and its third element is still
`c`. -/
theorem Delete_unshared_wide :
    (List.Delete 4 ints.1 ints.2 1 2).2.size = 3 ∧
      (List.Delete 4 ints.1 ints.2 1 2).2.contents 4 (List.Delete 4 ints.1 ints.2 1 2).1 =
        run 4 [16843009, 33686532, 50529027] ∧
      (List.Delete 4 ints.1 ints.2 1 2).2.contents 4 (List.Delete 4 ints.1 ints.2 1 2).1 ≠
        run 4 [16843009, 67372036, 84215045] := by
  decide

/-- C3: inserting `[7, 8]` at index 1 into the eight-byte buffer `[1, 2, 3]`
of capacity 4 takes the reallocating branch of `GrowthInsert`; the result is
an indeterminate element followed by `[7, 8, 1, 2]`, not `[1, 7, 8, 2, 3]`. -/
theorem Insert_reallocating :
    (List.Insert 8 longs.1 longs.2 1 (some (run 8 [7, 8])) 2).2.size = 5 ∧
      (List.Insert 8 longs.1 longs.2 1 (some (run 8 [7, 8])) 2).2.contents 8
          (List.Insert 8 longs.1 longs.2 1 (some (run 8 [7, 8])) 2).1 =
        List.replicate 8 none ++ run 8 [7, 8, 1, 2] ∧
      (List.Insert 8 longs.1 longs.2 1 (some (run 8 [7, 8])) 2).2.contents 8
          (List.Insert 8 longs.1 longs.2 1 (some (run 8 [7, 8])) 2).1 ≠
        run 8 [1, 7, 8, 2, 3] := by
  decide

/-- C5: `GrowthAppend` hands back no pointer when the capacity already
suffices (unshared `[a, b, c]` with capacity 32) and when the storage is
shared (the duplicate of `[a, b, c]`), so `Append` of a raw run has no defined
result there. -/
theorem GrowthAppend_no_return :
    (abc.2.GrowthAppend 1 abc.1 1).2.2 = none ∧
      (abcDup.2.GrowthAppend 1 abcDup.1 1).2.2 = none ∧
      List.Append 1 abc.1 abc.2 (some (run 1 [120])) 1 = none := by
  decide

/-- C6 (as stated) fails: the duplicate of an allocated buffer of size 0 is
the null buffer; it does not share with the original and its capacity
differs. -/
theorem copy_emptyAllocated_not_sharing :
    List.IsSharingWith emptyAllocated.2 (List.copy emptyAllocated.1 emptyAllocated.2).2 = false ∧
      List.IsSharingWith (List.copy emptyAllocated.1 emptyAllocated.2).2 emptyAllocated.2 = false ∧
      (List.copy emptyAllocated.1 emptyAllocated.2).2.capacity ≠ emptyAllocated.2.capacity := by
  decide

/-- C7: deleting every element of the duplicate of `[a, b, c]` as the first
mutating call does not detach: the duplicate keeps the shared block, no block
is allocated, and the counter keeps the value 2. -/
theorem Delete_all_shared_keeps_block :
    (List.Delete 1 abcDup.1 abcDup.2 0 3).2.ref = abc.2.ref ∧
      (List.Delete 1 abcDup.1 abcDup.2 0 3).2.size = 0 ∧
      (List.Delete 1 abcDup.1 abcDup.2 0 3).1.blocks.length = abcDup.1.blocks.length ∧
      (List.Delete 1 abcDup.1 abcDup.2 0 3).1.slotOf 0 = some 0 ∧
      (List.Delete 1 abcDup.1 abcDup.2 0 3).1.GetValue 0 = 2 := by
  decide

/-! ## Witnesses -/

theorem copy_IsSharingWith_witness :
    abc.2.live = true ∧
      List.IsSharingWith abc.2 (List.copy abc.1 abc.2).2 = true ∧
      List.IsSharingWith (List.copy abc.1 abc.2).2 abc.2 = true ∧
      (List.copy abc.1 abc.2).2 = abc.2 ∧
      (List.copy abc.1 abc.2).1.blocks.map Block.bytes = abc.1.blocks.map Block.bytes :=
  ⟨by decide, (copy_IsSharingWith abc.1 abc.2).1 (Or.inr (by decide))⟩

/-! ## Evaluations at concrete inputs, continued -/

/-- C12: the buffer built by `List<char>(0)` has size 0 and capacity 0 and
still owns a block; `IsNull` returns true for it. -/
theorem ofSize_zero_allocates :
    sizedZero.2.size = 0 ∧ sizedZero.2.capacity = 0 ∧ sizedZero.2.ref = some 0 ∧
      sizedZero.2.data = some 0 ∧ sizedZero.1.blocks.length = 1 ∧
      sizedZero.2.IsNull = true ∧
      (ListCore.ofSizeCapacity 1 Heap.empty 0 0).2.ref = some 0 := by
  decide

/-- C13: on `[a, b, c]`, `IndexOf(b)` returns 0 (the first element that
differs from `b`), `IndexOf(a)` returns 1, `IsExist(z)` is true although no
element equals `z`, and on the one-element buffer `[a]` the search for `a`
returns the not-found value. -/
theorem IndexOf_first_different :
    abc.2.IndexOf 1 abc.1 98 = some 0 ∧ abc.2.IndexOf 1 abc.1 97 = some 1 ∧
      abc.2.IsExist 1 abc.1 122 = some true ∧
      justA.2.IndexOf 1 justA.1 97 = some npos := by
  decide

/-- C14: on `[a, b, c]`, `LastIndexOf(a)` returns 2 and `LastIndexOf(c)`
returns 1; index 0 is never examined, so on `[a]` it returns the not-found
value for `a`; on the null buffer the scan starts at `size - 1 = 2^64 - 1` and
reads outside the storage. -/
theorem LastIndexOf_wrong :
    abc.2.LastIndexOf 1 abc.1 97 = some 2 ∧ abc.2.LastIndexOf 1 abc.1 99 = some 1 ∧
      justA.2.LastIndexOf 1 justA.1 97 = some npos ∧
      ListCore.null.LastIndexOf 1 Heap.empty 97 = none := by
  decide

/-- C16: prepending the first 2 elements of `L = [a, b, c]` to the null
buffer through the list overload yields all of `L` with length 3, where the
raw-run overload yields `[a, b]`; the list overload of insert leaves the null
buffer null; the list overload of append yields all of `L` as well. -/
theorem PrependListSize_null_takes_all :
    (List.PrependListSize 1 abc.1 ListCore.null abc.2 2).2.size = 3 ∧
      (List.PrependListSize 1 abc.1 ListCore.null abc.2 2).2.contents 1
          (List.PrependListSize 1 abc.1 ListCore.null abc.2 2).1 = run 1 [97, 98, 99] ∧
      (List.Prepend 1 abc.1 ListCore.null (some (abc.2.contents 1 abc.1)) 2).2.contents 1
          (List.Prepend 1 abc.1 ListCore.null (some (abc.2.contents 1 abc.1)) 2).1 =
        run 1 [97, 98] ∧
      (List.InsertListSize 1 abc.1 ListCore.null 0 abc.2 2).2 = ListCore.null ∧
      (List.Insert 1 abc.1 ListCore.null 0 (some (abc.2.contents 1 abc.1)) 2).2.size = 2 ∧
      (List.AppendListSize 1 abc.1 ListCore.null abc.2 2).map (fun s => s.2.size) = some 3 := by
  decide

/-- C18: `IsShared` dereferences a null pointer on the null buffer (`ref`) and
on the never-duplicated buffer `[a, b, c]` (the counter cell), and on the
buffers just detached or cleared from the duplicate. -/
theorem IsShared_null_dereference :
    List.IsShared Heap.empty ListCore.null = none ∧
      List.IsShared abc.1 abc.2 = none ∧
      List.IsShared (abcDup.2.Detach 1 abcDup.1 true).1 (abcDup.2.Detach 1 abcDup.1 true).2 = none ∧
      List.IsShared (List.Empty abcDup.1 abcDup.2).1 (List.Empty abcDup.1 abcDup.2).2 = none := by
  decide

/-- C20: on the unshared buffer of three managed elements, `Delete(0, 3)` runs
no destructor, while `Delete(0, 2)` runs it on elements 0 and 1. -/
theorem Delete_all_destroys_nothing :
    managed.2.size = 3 ∧ managed.1.slotShared 1 = false ∧ managed.2.ref = some 1 ∧
      ListCore.DeleteDestroys managed.1 managed.2 0 3 = [] ∧
      ListCore.DeleteDestroys managed.1 managed.2 0 2 = [0, 1] ∧
      (managed.2.Delete 32 managed.1 0 3).2.size = 0 := by
  decide

/-! ## The counter after duplication -/

/-- C15 (as amended): duplicating a well-formed non-empty buffer `A` with
block `r` yields a buffer with the same `ref` (hence the same counter cell),
`data`, `size` and `capacity`; no block's element bytes change and no block is
allocated; when the cell of `r` held no counter a new counter with value 2 is
stored in it and the existing counters keep their values, otherwise the
counter in the cell goes up by exactly 1 when it is below `2 ^ 31 - 1`, and
from `2 ^ 31 - 1` it goes to `-2 ^ 31`. -/
theorem copy_counter (w : Nat) (h : Heap) (A : ListCore) (r : Nat)
    (hwf : WellFormed w h A) (hcv : CounterValid h A) (hlive : A.live = true)
    (hr : A.ref = some r) :
    (ListCore.copy h A).2 = A ∧
      (ListCore.copy h A).1.blocks.map Block.bytes = h.blocks.map Block.bytes ∧
      (h.slotOf r = none →
        (ListCore.copy h A).1.slotOf r = some h.counters.length ∧
        (ListCore.copy h A).1.GetValue h.counters.length = 2 ∧
        (ListCore.copy h A).1.counters = h.counters ++ [2]) ∧
      (∀ k, h.slotOf r = some k →
        (ListCore.copy h A).1.slotOf r = some k ∧
        (h.GetValue k < 2147483647 →
          (ListCore.copy h A).1.GetValue k = h.GetValue k + 1) ∧
        (h.GetValue k = 2147483647 → (ListCore.copy h A).1.GetValue k = -2147483648) ∧
        (ListCore.copy h A).1.counters.length = h.counters.length) := by
  obtain ⟨ref, data, size, capacity⟩ := A
  simp only at hr
  subst hr
  have hdata := hwf.data_eq
  simp only at hdata
  subst hdata
  simp only [ListCore.live, Option.isSome_some, Bool.and_self, Bool.true_and, bne_iff_ne,
    ne_eq] at hlive
  obtain ⟨hrlt, -⟩ := hwf.block r rfl
  cases hslot : h.slotOf r with
  | some k =>
    obtain ⟨hk, hpos⟩ := hcv r k rfl hslot
    have hcopy : ListCore.copy h ⟨some r, some r, size, capacity⟩ =
        (h.IncrementRef k, ⟨some r, some r, size, capacity⟩) := by
      simp [ListCore.copy, hslot, hlive]
    rw [hcopy]
    refine ⟨rfl, rfl, fun hn => (by cases hn), ?_⟩
    intro k' hk'
    cases hk'
    refine ⟨?_, ?_, ?_, ?_⟩
    · simp only [Heap.IncrementRef, slotOf_mk, hslot]
    · intro hlt
      simp only [Heap.IncrementRef, getValue_set _ _ _ _ _ hk, wrapInt]
      omega
    · intro heq
      simp only [Heap.IncrementRef, getValue_set _ _ _ _ _ hk, wrapInt, heq]
      decide
    · simp only [Heap.IncrementRef, List.length_set]
  | none =>
    have hcopy : ListCore.copy h ⟨some r, some r, size, capacity⟩ =
        (Heap.setSlot ⟨h.blocks, h.counters ++ [2], h.freed⟩ r (some h.counters.length),
          ⟨some r, some r, size, capacity⟩) := by
      simp [ListCore.copy, hslot, hlive, Heap.newCounter]
    have hcs : (Heap.setSlot ⟨h.blocks, h.counters ++ [2], h.freed⟩ r
        (some h.counters.length)).counters = h.counters ++ [2] := modifyBlock_counters _ _ _
    rw [hcopy]
    refine ⟨rfl, setSlot_bytes ⟨h.blocks, h.counters ++ [2], h.freed⟩ r _, fun _ => ⟨?_, ?_, hcs⟩,
      fun k hk => (by cases hk)⟩
    · exact slotOf_setSlot ⟨h.blocks, h.counters ++ [2], h.freed⟩ r _ hrlt
    · simp [Heap.GetValue, hcs]

/-! ## Witnesses for the counter after duplication -/

theorem abcDup_wellFormed : WellFormed 1 abcDup.1 abcDup.2 where
  data_eq := rfl
  size_le := by decide
  null_zero := by intro hn; cases hn
  block := by
    intro r hr
    cases hr
    exact ⟨by decide, by decide⟩

theorem abcDup_counterValid : CounterValid abcDup.1 abcDup.2 := by
  intro r k hr hk
  cases hr
  cases hk
  exact ⟨by decide, by decide⟩

theorem copy_counter_witness :
    WellFormed 1 abc.1 abc.2 ∧ CounterValid abc.1 abc.2 ∧ abc.2.live = true ∧
      abc.2.ref = some 0 ∧ abc.1.slotOf 0 = none ∧
      (ListCore.copy abc.1 abc.2).2 = abc.2 ∧
      (ListCore.copy abc.1 abc.2).1.blocks.map Block.bytes = abc.1.blocks.map Block.bytes ∧
      (ListCore.copy abc.1 abc.2).1.slotOf 0 = some abc.1.counters.length ∧
      (ListCore.copy abc.1 abc.2).1.GetValue abc.1.counters.length = 2 ∧
      (ListCore.copy abc.1 abc.2).1.counters = abc.1.counters ++ [2] ∧
      abcDup.1.slotOf 0 = some 0 ∧ abcDup.1.GetValue 0 < 2147483647 ∧
      (ListCore.copy abcDup.1 abcDup.2).1.GetValue 0 = abcDup.1.GetValue 0 + 1 :=
  have hc := copy_counter 1 abc.1 abc.2 0 abc_wellFormed abc_counterValid (by decide) (by decide)
  have hd := copy_counter 1 abcDup.1 abcDup.2 0 abcDup_wellFormed abcDup_counterValid
    (by decide) (by decide)
  ⟨abc_wellFormed, abc_counterValid, by decide, by decide, by decide, hc.1, hc.2.1,
    (hc.2.2.1 (by decide)).1, (hc.2.2.1 (by decide)).2.1, (hc.2.2.1 (by decide)).2.2,
    by decide, by decide, (hd.2.2.2 0 (by decide)).2.1 (by decide)⟩

/-! ## The managed copy loop -/

theorem GenericCopy_unfinished (src : List Nat) (size : Nat) (hsize : 0 < size) (fuel : Nat) :
    ∀ (i : Nat) (dest : List (Option Nat)),
      (GenericTypeTrait.Copy src size fuel i dest).2.2 = false ∧
        (GenericTypeTrait.Copy src size fuel i dest).2.1 = i + fuel := by
  induction fuel with
  | zero => intro i dest; exact ⟨rfl, rfl⟩
  | succ fuel ih =>
    intro i dest
    simp only [GenericTypeTrait.Copy, hsize, if_true]
    obtain ⟨h1, h2⟩ := ih (i + 1) (dest.set i src[i]?)
    exact ⟨h1, by rw [h2]; omega⟩

/-- C21: for a range of one element the loop of `GenericTypeTrait::Copy` is
never left, however many iterations it is given, and it has made as many
copy-constructions as it was given iterations; after three iterations it has
written `dest[1]` and `dest[2]`, where the trivial strategy's copy writes
`dest[0]` only.  For a range of no element the loop is left at once with no
copy-construction. -/
theorem GenericCopy_never_finishes :
    (∀ fuel, (GenericTypeTrait.Copy [7, 8, 9] 1 fuel 0 [none, none, none]).2.2 = false ∧
        (GenericTypeTrait.Copy [7, 8, 9] 1 fuel 0 [none, none, none]).2.1 = fuel) ∧
      GenericTypeTrait.Copy [7, 8, 9] 1 3 0 [none, none, none] =
        ([some 7, some 8, some 9], 3, false) ∧
      PodTypeTrait.Copy [7, 8, 9] 1 [none, none, none] = [some 7, none, none] ∧
      GenericTypeTrait.Copy [7, 8, 9] 0 1 0 [none, none, none] =
        ([none, none, none], 0, true) := by
  refine ⟨fun fuel => ?_, by decide, by decide, by decide⟩
  have h := GenericCopy_unfinished [7, 8, 9] 1 (by decide) fuel 0 [none, none, none]
  exact ⟨h.1, by rw [h.2]; omega⟩

/-! ## Evaluations at concrete inputs, concluded -/

/-- C22: after `List<char>(abc, 3)` the counter in the cell of `abc`'s block
is 2 and the block tests as shared although `abc` is the only live buffer on
it; the same holds after the duplicate of `abc` has deleted its whole range
and then grown, which moves it to a fresh block without a decrement. -/
theorem counter_exceeds_owners :
    abcTruncated.heap.slotOf 0 = some 0 ∧ abcTruncated.heap.GetValue 0 = 2 ∧
      abcTruncated.owners 0 = 1 ∧ abcTruncated.heap.slotShared 0 = true ∧
      abcRegrown.heap.slotOf 0 = some 0 ∧ abcRegrown.heap.GetValue 0 = 2 ∧
      abcRegrown.owners 0 = 1 ∧ abcRegrown.heap.slotShared 0 = true := by
  decide

/-- C23: `abcEmptied` sits on a block whose counter is shared; after
`EnsureCapacity(40)` it sits on a fresh block of capacity 40 with an empty
cell, and the counter of the old block still has the value 2. -/
theorem EnsureCapacity_empty_shared_no_decrement :
    abcEmptied.1.slotShared 0 = true ∧ abcEmptied.1.GetValue 0 = 2 ∧
      abcEmptied.2.capacity = 32 ∧
      (abcEmptied.2.EnsureCapacity 1 abcEmptied.1 40).2 = ⟨some 1, some 1, 0, 40⟩ ∧
      (abcEmptied.2.EnsureCapacity 1 abcEmptied.1 40).1.slotOf 1 = none ∧
      (abcEmptied.2.EnsureCapacity 1 abcEmptied.1 40).1.GetValue 0 = 2 := by
  decide

/-- C24: `Compare` on the equal two-element ranges `[1, 2]` and `[1, 2]`
followed in memory by 5 and 7 returns -1, the result for the pair at index 2;
for `n = 0` it returns the result for the pair at index 0; and when nothing
follows the ranges in memory it reads outside of it. -/
theorem Compare_reads_past_end :
    TypeTrait.Compare [1, 2, 5] [1, 2, 7] 0 2 = some (-1) ∧
      TypeTrait.Compare [1] [2] 0 0 = some (-1) ∧
      TypeTrait.Compare [1, 2] [1, 2] 0 2 = none ∧
      TypeTrait.Compare [] [] 0 0 = none ∧
      TypeTrait.Compare [1, 3, 5] [1, 2, 7] 0 3 = some 1 := by
  decide

/-! ## The counter at the end of the range of `int` -/

theorem copies_counter (n : Nat) (hn : n + 2 < 2 ^ 31) :
    (copies (n + 1)).slotOf 0 = some 0 ∧ (copies (n + 1)).GetValue 0 = n + 2 ∧
      (copies (n + 1)).counters.length = 1 := by
  induction n with
  | zero => decide
  | succ n ih =>
    obtain ⟨h1, h2, h3⟩ := ih (by omega)
    have habc : abc.2 = ⟨some 0, some 0, 3, 32⟩ := by decide
    have hstep : copies (n + 1 + 1) = (copies (n + 1)).IncrementRef 0 := by
      show (ListCore.copy (copies (n + 1)) abc.2).1 = _
      rw [habc]
      simp [ListCore.copy, h1]
    rw [hstep]
    refine ⟨?_, ?_, ?_⟩
    · simp only [Heap.IncrementRef, slotOf_mk, h1]
    · simp only [Heap.IncrementRef, getValue_set _ _ _ _ _ (by omega : 0 < (copies (n + 1)).counters.length),
        h2, wrapInt]
      have e : (2:Nat) ^ 31 = 2147483648 := by norm_num
      rw [e] at hn
      push_cast
      omega
    · simp only [Heap.IncrementRef, List.length_set, h3]

/-- C15 (as stated) fails: after 2147483646 duplicates of `[a, b, c]` the
counter is `2 ^ 31 - 1`, and one more duplicate takes it to `-2 ^ 31`, not to
`2 ^ 31`. -/
theorem copy_counter_wraps :
    (copies 2147483646).slotOf 0 = some 0 ∧ (copies 2147483646).GetValue 0 = 2147483647 ∧
      (ListCore.copy (copies 2147483646) abc.2).1.GetValue 0 = -2147483648 ∧
      (ListCore.copy (copies 2147483646) abc.2).1.GetValue 0 ≠
        (copies 2147483646).GetValue 0 + 1 := by
  have hc := copies_counter 2147483645 (by norm_num)
  generalize copies (2147483645 + 1) = g at hc ⊢
  obtain ⟨h1, h2, h3⟩ := hc
  have h2' : g.GetValue 0 = 2147483647 := by
    rw [h2]
    norm_num
  have habc : abc.2 = ⟨some 0, some 0, 3, 32⟩ := by decide
  have hstep : (ListCore.copy g abc.2).1 = g.IncrementRef 0 := by
    rw [habc]
    simp [ListCore.copy, h1]
  have hval : (ListCore.copy g abc.2).1.GetValue 0 = -2147483648 := by
    rw [hstep]
    simp only [Heap.IncrementRef, getValue_set _ _ _ _ _ (by omega : 0 < g.counters.length),
      h2', wrapInt]
    decide
  refine ⟨h1, h2', hval, ?_⟩
  rw [hval, h2']
  decide

/-! ## Calls that read the counter, and calls that find room -/

/-- Whatever the counter holds, `IsShared` reads it through a reference whose
object is gone. -/
theorem Strict_IsShared_undefined (v : Int) : Strict.ReferenceCount.IsShared v = none := rfl

/-- The test `(*ref) && (*ref)->IsShared()` is defined exactly when the cell
holds no counter, and is false then. -/
theorem Strict_slotShared_eq (h : Heap) (r : Nat) :
    Strict.slotShared h r = if (h.slotOf r).isSome then none else some false := by
  unfold Strict.slotShared
  cases h.slotOf r <;> rfl

/-- C4: on the duplicate of `[a, b, c]`, and on `[a, b, c]` itself once it has
been duplicated, `Prepend([x, y], 2)` evaluates `(*ref)->IsShared()` on the
counter in the cell of the block, which reads through the reference returned
by `GetValue` after the object it refers to is gone: the call has no defined
result.  On `[a, b, c]` before the duplication it yields `[x, y, a, b, c]`. -/
theorem Prepend_shared_undefined :
    abcDup.1.slotOf 0 = some 0 ∧ abcDup.2.ref = some 0 ∧
      Strict.slotShared abcDup.1 0 = none ∧
      Strict.List.Prepend 1 abcDup.1 abcDup.2 (some (run 1 [120, 121])) 2 = none ∧
      Strict.List.Prepend 1 abcDup.1 abc.2 (some (run 1 [120, 121])) 2 = none ∧
      (Strict.List.Prepend 1 abc.1 abc.2 (some (run 1 [120, 121])) 2).map
        (fun s => s.2.contents 1 s.1) = some (run 1 [120, 121, 97, 98, 99]) := by
  decide

/-- C8: `Empty()` on the duplicate of `[a, b, c]` evaluates
`(*ref)->IsShared()` on the counter that the duplication created, and has no
defined result; on `[a, b, c]` before the duplication it sets the size to 0
and keeps the block. -/
theorem Empty_duplicate_undefined :
    abcDup.1.slotOf 0 = some 0 ∧ abcDup.1.GetValue 0 = 2 ∧
      Strict.ReferenceCount.IsShared (abcDup.1.GetValue 0) = none ∧
      Strict.List.Empty abcDup.1 abcDup.2 = none ∧
      Strict.List.Empty abc.1 abc.2 = some (abc.1, ⟨some 0, some 0, 0, 32⟩) := by
  decide

/-- C11: the buffer built by `List<char>(3, 100)` and then cleared keeps its
block and its capacity of 100; `Prepend(&x, 1)` then takes the branch for a
buffer without a block, so the buffer ends on a second block with capacity
32, and the first block is neither reused nor freed. -/
theorem Prepend_after_Empty_shrinks :
    roomy.map (fun s => s.2) = some ⟨some 0, some 0, 3, 100⟩ ∧
      roomyCleared.map (fun s => s.2) = some ⟨some 0, some 0, 0, 100⟩ ∧
      roomyRegrown.map (fun s => s.2) = some ⟨some 1, some 1, 1, 32⟩ ∧
      roomyRegrown.map (fun s => (s.1.blocks.length, s.1.freed)) = some (2, []) := by
  decide

/-- C17: the first `Append` on the null buffer yields `[a]` with capacity 32;
the second finds room, so `GrowthAppend(1)` reaches its closing brace without
a `return` statement, and the call has no defined result. -/
theorem Append_twice_undefined :
    oneAppended.map (fun s => (s.2, s.2.contents 1 s.1)) =
        some (⟨some 0, some 0, 1, 32⟩, run 1 [97]) ∧
      oneAppended.map (fun s => Strict.slotShared s.1 0) = some (some false) ∧
      oneAppended.map (fun s => Strict.ListCore.GrowthAppend 1 s.1 s.2 1) = some none ∧
      twoAppended = none := by
  decide

/-- C19: `Detach` on the duplicate of `[a, b, c]`, with either value of
`copyData`, and `GetData` on it evaluate `(*ref)->IsShared()` on the counter
in the cell and have no defined result; on `[a, b, c]` before the
duplication, whose cell holds no counter, `Detach` and `GetData` change
nothing; `GetConstData` changes nothing on the duplicate. -/
theorem Detach_shared_undefined :
    abcDup.1.slotOf 0 = some 0 ∧
      Strict.ListCore.Detach 1 abcDup.1 abcDup.2 true = none ∧
      Strict.ListCore.Detach 1 abcDup.1 abcDup.2 false = none ∧
      Strict.List.GetData 1 abcDup.1 abcDup.2 = none ∧
      Strict.List.GetData 1 abcDup.1 abc.2 = none ∧
      Strict.ListCore.Detach 1 abc.1 abc.2 true = some abc ∧
      Strict.List.GetData 1 abc.1 abc.2 = some abc ∧
      List.GetConstData abcDup.1 abcDup.2 = (abcDup.1, abcDup.2, some 0) := by
  decide

end Escapist
